import Mathlib

/-!
Verification development for the crossword layout engine of the
kreuzwortraetsel-generator repository.

The TypeScript sources are shallowly embedded: strings become `List Char`,
JS numbers used as integer coordinates become `Int`, the mutable
`CrosswordGrid` object becomes a record passed explicitly, and the
mutable 2-D `string[][]` character surface becomes a function
`Int → Int → Char` read and written only through the bounds-checked
`getCell`/`setCell` accessors (exactly as in the source, where every
read/write of `grid` goes through those methods).
-/

namespace Crossword

/-- `Direction` from `src/models/Direction.ts`: the two word orientations. -/
inductive Direction where
  | horizontal : Direction
  | vertical : Direction
deriving DecidableEq, Repr

/-- `PlacedWord` from `src/models/PlacedWord.ts`: answer text, clue,
anchor coordinate of the first letter, orientation and assigned number. -/
structure PlacedWord where
  word : List Char
  clue : String
  row : Int
  col : Int
  direction : Direction
  number : Nat
deriving DecidableEq, Repr

/-- `WordEntry` from `src/models/WordEntry.ts`: a clue/answer pair. -/
structure WordEntry where
  clue : String
  answer : List Char
deriving DecidableEq, Repr

/-- Row of the `i`-th cell of a word footprint starting at `row` with the
given direction: `row + (direction === VERTICAL ? i : 0)`, the index
arithmetic used throughout the source. -/
def stepRow (d : Direction) (row : Int) (i : Nat) : Int :=
  row + (if d = Direction.vertical then (i : Int) else 0)

/-- Column of the `i`-th cell of a word footprint:
`col + (direction === HORIZONTAL ? i : 0)`. -/
def stepCol (d : Direction) (col : Int) (i : Nat) : Int :=
  col + (if d = Direction.horizontal then (i : Int) else 0)

/-- Row of the `i`-th footprint cell of a placed word. -/
def PlacedWord.cellRow (w : PlacedWord) (i : Nat) : Int :=
  stepRow w.direction w.row i

/-- Column of the `i`-th footprint cell of a placed word. -/
def PlacedWord.cellCol (w : PlacedWord) (i : Nat) : Int :=
  stepCol w.direction w.col i

/-- `CrosswordGrid` from `src/models/CrosswordGrid.ts`: width, height,
the character surface and the ordered list of placed words.  The JS
`string[][]` surface is modelled as a total function on `Int` pairs;
all source accesses go through `getCell`/`setCell`, which mask
out-of-bounds coordinates, so the function values outside the bounds
are never observable. -/
structure CrosswordGrid where
  width : Int
  height : Int
  surface : Int → Int → Char
  placedWords : List PlacedWord

namespace CrosswordGrid

/-- `new CrosswordGrid(width, height)` after a successful allocation:
a width × height surface filled with the empty marker `' '` and an
empty placed-word list. -/
def make (width height : Int) : CrosswordGrid :=
  { width := width, height := height
    surface := fun _ _ => ' '
    placedWords := [] }

/-- The constructor of `CrosswordGrid` performs no explicit dimension
check; it allocates with `Array(height).fill(null).map(() => Array(width).fill(' '))`.
In JavaScript `Array(n)` throws a `RangeError` for a negative integer
length, and the inner `Array(width)` is only evaluated when `height > 0`.
`construct` models this: `none` is the thrown `RangeError`. -/
def construct (width height : Int) : Option CrosswordGrid :=
  if height < 0 then none
  else if 0 < height ∧ width < 0 then none
  else some (make width height)

/-- `isInBounds(row, col)`. -/
def isInBounds (g : CrosswordGrid) (row col : Int) : Bool :=
  decide (0 ≤ row ∧ row < g.height ∧ 0 ≤ col ∧ col < g.width)

/-- `getCell(row, col)`: returns the empty marker out of bounds. -/
def getCell (g : CrosswordGrid) (row col : Int) : Char :=
  if g.isInBounds row col then g.surface row col else ' '

/-- `setCell(row, col, value)`: no-op out of bounds. -/
def setCell (g : CrosswordGrid) (row col : Int) (value : Char) : CrosswordGrid :=
  if g.isInBounds row col then
    { g with surface := fun r c => if r = row ∧ c = col then value else g.surface r c }
  else g

/-- `isEmpty(row, col)`. -/
def isEmpty (g : CrosswordGrid) (row col : Int) : Bool :=
  decide (g.getCell row col = ' ')

/-- `addPlacedWord(word)`: push the word, then paint every cell of its
footprint through `setCell`.  The JS loop over `i` is the fold over
`List.range word.word.length`. -/
def addPlacedWord (g : CrosswordGrid) (w : PlacedWord) : CrosswordGrid :=
  (List.range w.word.length).foldl
    (fun acc i => acc.setCell (w.cellRow i) (w.cellCol i) (w.word.getD i ' '))
    { g with placedWords := g.placedWords ++ [w] }

/-- The used-cell set built by `removeLastPlacedWord`: does some word of
`pws` cover cell `(r, c)`?  The JS `Set` of `"r,c"` strings is modelled
by this decidable predicate (the string key encodes exactly the pair). -/
def coveredBy (pws : List PlacedWord) (r c : Int) : Bool :=
  pws.any fun w =>
    (List.range w.word.length).any fun i =>
      decide (w.cellRow i = r ∧ w.cellCol i = c)

/-- `removeLastPlacedWord()`: pop the most recent word (`none` on an
empty list, leaving the grid untouched); otherwise clear every footprint
cell of the popped word that is not covered by a remaining word.
The mutating JS method returns the popped word; the model returns the
popped word together with the updated grid. -/
def removeLastPlacedWord (g : CrosswordGrid) : Option PlacedWord × CrosswordGrid :=
  match g.placedWords.getLast? with
  | none => (none, g)
  | some w =>
    let g1 : CrosswordGrid := { g with placedWords := g.placedWords.dropLast }
    let g2 := (List.range w.word.length).foldl
      (fun acc i =>
        if coveredBy g1.placedWords (w.cellRow i) (w.cellCol i) then acc
        else acc.setCell (w.cellRow i) (w.cellCol i) ' ')
      g1
    (some w, g2)

end CrosswordGrid

/-! ## Normalizer (`src/models/WordEntry.ts`) -/

/-- Model of JS `String.prototype.toUpperCase` on one character,
restricted to the characters this code distinguishes: ASCII lowercase
letters map to their uppercase form, the German letters handled by the
normalizer map as in Unicode (`ß` uppercases to the two letters `SS`),
and every other character is kept unchanged.  Characters outside this
table are irrelevant to the normalizer: whatever their uppercase image,
it is removed by the subsequent `[^A-ZÄÖÜ]` filter. -/
def jsUpperChar (c : Char) : List Char :=
  if 'a' ≤ c ∧ c ≤ 'z' then [c.toUpper]
  else if c = 'ä' then ['Ä']
  else if c = 'ö' then ['Ö']
  else if c = 'ü' then ['Ü']
  else if c = 'ß' then ['S', 'S']
  else [c]

/-- `normalizeWordEntry`'s answer pipeline: uppercase, strip every
character outside `[A-ZÄÖÜ]`, then expand `Ä→AE`, `Ö→OE`, `Ü→UE`,
`ß→SS` (the last replacement is vacuous: no `ß` survives the filter).
Each `String.prototype.replace` with a one-character global pattern is a
`flatMap` over the characters. -/
def normalizeAnswer (s : List Char) : List Char :=
  let upper := s.flatMap jsUpperChar
  let filtered := upper.filter fun c =>
    decide (('A' ≤ c ∧ c ≤ 'Z') ∨ c = 'Ä' ∨ c = 'Ö' ∨ c = 'Ü')
  let r1 := filtered.flatMap fun c => if c = 'Ä' then ['A', 'E'] else [c]
  let r2 := r1.flatMap fun c => if c = 'Ö' then ['O', 'E'] else [c]
  let r3 := r2.flatMap fun c => if c = 'Ü' then ['U', 'E'] else [c]
  let r4 := r3.flatMap fun c => if c = 'ß' then ['S', 'S'] else [c]
  r4

/-- `normalizeWordEntry(entry)`: the clue is kept, the answer is
normalized. -/
def normalizeWordEntry (e : WordEntry) : WordEntry :=
  { clue := e.clue, answer := normalizeAnswer e.answer }

/-! ## Placement validator (`WordPlacementService.canPlaceWord`) -/

/-- A candidate placement as handed to the validator: anchor coordinate
and orientation.  The mutable `score` field of the source's
`PlacementOption` is search metadata never read by the validator and is
omitted here. -/
structure PlacementOption where
  row : Int
  col : Int
  direction : Direction
deriving DecidableEq, Repr

/-- The candidate placement carried by a placed word: its anchor and
orientation (the triple handed to `canPlaceWord` when the word was a
candidate). -/
def PlacedWord.toOption (w : PlacedWord) : PlacementOption :=
  { row := w.row, col := w.col, direction := w.direction }

namespace WordPlacementService

/-- The `endRow` computed at the top of `canPlaceWord`:
`option.row + (direction === VERTICAL ? word.length - 1 : 0)`. -/
def endRowOf (word : List Char) (opt : PlacementOption) : Int :=
  opt.row + (if opt.direction = Direction.vertical then (word.length : Int) - 1 else 0)

/-- The `endCol` computed at the top of `canPlaceWord`:
`option.col + (direction === HORIZONTAL ? word.length - 1 : 0)`. -/
def endColOf (word : List Char) (opt : PlacementOption) : Int :=
  opt.col + (if opt.direction = Direction.horizontal then (word.length : Int) - 1 else 0)

/-- The cell loop inside `canPlaceWord`, over the listed footprint
indices: `none` models the early `return false` (character conflict at
an occupied cell, or a non-empty perpendicular neighbour at an empty
cell); `some n` means every listed cell passed and `n` of them were
occupied (the running `intersectionCount`). -/
def scanCells (g : CrosswordGrid) (word : List Char) (opt : PlacementOption) :
    List Nat → Option Nat
  | [] => some 0
  | i :: rest =>
    let r := stepRow opt.direction opt.row i
    let c := stepCol opt.direction opt.col i
    if g.getCell r c ≠ ' ' then
      if g.getCell r c = word.getD i ' ' then (scanCells g word opt rest).map (· + 1)
      else none
    else
      if (if opt.direction = Direction.horizontal then
            g.isEmpty (r - 1) c && g.isEmpty (r + 1) c
          else
            g.isEmpty r (c - 1) && g.isEmpty r (c + 1)) then
        scanCells g word opt rest
      else none

/-- `canPlaceWord(grid, word, option)` from
`src/services/WordPlacementService.ts` lines 732–799: bounds check on
the word's start and end cell, the per-cell loop, the
`intersectionCount === 0` rejection, and the empty check on the cells
immediately before the start and after the end. -/
def canPlaceWord (g : CrosswordGrid) (word : List Char) (opt : PlacementOption) : Bool :=
  if !(g.isInBounds opt.row opt.col && g.isInBounds (endRowOf word opt) (endColOf word opt)) then
    false
  else
    match scanCells g word opt (List.range word.length) with
    | none => false
    | some intersectionCount =>
      if intersectionCount = 0 then false
      else
        if opt.direction = Direction.horizontal then
          g.isEmpty opt.row (opt.col - 1) && g.isEmpty opt.row (endColOf word opt + 1)
        else
          g.isEmpty (opt.row - 1) opt.col && g.isEmpty (endRowOf word opt + 1) opt.col

/-! ## First-word placement and beam initialization -/

/-- `placeFirstWord(grid, entry, direction, gridSize)`: centers the
word along the requested orientation and adds it with number 1.
`Math.floor(x / 2)` on integers is `Int.fdiv x 2`. -/
def placeFirstWord (grid : CrosswordGrid) (entry : WordEntry) (direction : Direction)
    (gridSize : Int) : CrosswordGrid :=
  let word := entry.answer
  let startRow :=
    if direction = Direction.horizontal then Int.fdiv gridSize 2
    else Int.fdiv (gridSize - word.length) 2
  let startCol :=
    if direction = Direction.horizontal then Int.fdiv (gridSize - word.length) 2
    else Int.fdiv gridSize 2
  grid.addPlacedWord
    { word := word, clue := entry.clue, row := startRow, col := startCol
      direction := direction, number := 1 }

/-- One beam-search partial state (`BeamState` in the source): grid,
indices of already placed entries (the JS `Set<number>`, here the list
of inserted indices), cumulative score. -/
structure BeamState where
  grid : CrosswordGrid
  placed : List Nat
  score : Int

/-- The beam initialization of `tryBeamSearch` (lines 309–317): for
every entry index and for each of HORIZONTAL and VERTICAL, a fresh
grid with that entry placed first, pushed in loop order. -/
def initialBeam (entries : List WordEntry) (gridSize : Int) : List BeamState :=
  (List.range entries.length).foldl
    (fun beam i =>
      [Direction.horizontal, Direction.vertical].foldl
        (fun beam dir =>
          let grid := CrosswordGrid.make gridSize gridSize
          beam ++ [{ grid := placeFirstWord grid (entries.getD i ⟨"", []⟩) dir gridSize
                     placed := [i], score := 1 }])
        beam)
    []

/-! ## Numbering (`WordPlacementService.assignNumbers`) -/

/-- The comparator of `assignNumbers`: row ascending, then column
ascending. -/
def anchorLe (a b : PlacedWord) : Prop :=
  a.row < b.row ∨ (a.row = b.row ∧ a.col ≤ b.col)

instance : DecidableRel anchorLe := fun a b => by
  unfold anchorLe; infer_instance

instance : IsTotal PlacedWord anchorLe :=
  ⟨by intro a b; unfold anchorLe; omega⟩

instance : IsTrans PlacedWord anchorLe :=
  ⟨by intro a b c; unfold anchorLe; omega⟩

/-- Reading order on anchor coordinates: row ascending, then column
ascending (non-strict). -/
def pairLe (p q : Int × Int) : Prop :=
  p.1 < q.1 ∨ (p.1 = q.1 ∧ p.2 ≤ q.2)

/-- Strict reading order on anchor coordinates: one anchor precedes
another when its row is smaller, or rows are equal and its column is
smaller. -/
def pairLt (p q : Int × Int) : Prop :=
  p.1 < q.1 ∨ (p.1 = q.1 ∧ p.2 < q.2)

/-- Lookup in the association-list model of the JS
`Map<string, number>` keyed by `"row,col"` (the string key encodes
exactly the coordinate pair). -/
def lookupKey : List ((Int × Int) × Nat) → Int × Int → Option Nat
  | [], _ => none
  | (k, v) :: rest, key => if k = key then some v else lookupKey rest key

/-- The anchors that are new to the walk, in first-encounter order,
given anchors already `seen`: the keys `assignNumbers` inserts into its
map.  (Proof device for characterizing `buildNumbersGo`.) -/
def freshKeys (seen : List (Int × Int)) : List PlacedWord → List (Int × Int)
  | [] => []
  | w :: rest =>
    if (w.row, w.col) ∈ seen then freshKeys seen rest
    else (w.row, w.col) :: freshKeys ((w.row, w.col) :: seen) rest

/-- Consecutive numbering of a key list starting at `n`.  (Proof device
for characterizing `buildNumbersGo`.) -/
def numberList : List (Int × Int) → Nat → List ((Int × Int) × Nat)
  | [], _ => []
  | k :: ks, n => (k, n) :: numberList ks (n + 1)

/-- The numbering walk of `assignNumbers`: over the sorted words, give
each anchor coordinate not yet in the map the next number. -/
def buildNumbersGo : List ((Int × Int) × Nat) → Nat → List PlacedWord →
    List ((Int × Int) × Nat)
  | m, _, [] => m
  | m, n, w :: rest =>
    match lookupKey m (w.row, w.col) with
    | some _ => buildNumbersGo m n rest
    | none => buildNumbersGo (m ++ [((w.row, w.col), n)]) (n + 1) rest

/-- `positionNumbers` of `assignNumbers`, built from the sorted list. -/
def buildNumbers (l : List PlacedWord) : List ((Int × Int) × Nat) :=
  buildNumbersGo [] 1 l

/-- `assignNumbers(grid)` (lines 844–862): sort a copy of the placed
words by (row, col), assign each distinct anchor coordinate the next
integer starting at 1, and set every word's number to its anchor's
entry.  The source mutates each `PlacedWord` object in the sorted copy;
since every word occurs once and its number becomes exactly the map
value of its anchor key, the observable effect is the placed-word list
with each number replaced by the lookup, as modelled here.  JS
`Array.prototype.sort` with this comparator is modelled by
`List.insertionSort anchorLe`: the assigned numbers depend only on the
sequence of anchor keys, which any sort agreeing with the comparator
produces identically. -/
def assignNumbers (g : CrosswordGrid) : CrosswordGrid :=
  let sorted := List.insertionSort anchorLe g.placedWords
  let positionNumbers := buildNumbers sorted
  { g with placedWords := g.placedWords.map fun w =>
      { w with number := (lookupKey positionNumbers (w.row, w.col)).getD 0 } }

/-! ## The strategy driver (`WordPlacementService.generateLayout`)

The four search strategies poll `Date.now()` and `Math.random()`, so a
single strategy invocation is not a function of its arguments.  The
driver logic of `generateLayout` (lines 30–96) — input check,
best-result selection, phase sequencing, early break, error decision —
is deterministic, and is embedded here with each strategy invocation
abstracted as its outcome: `some result` for a normal return, `none`
for a thrown exception (absorbed by the source's `catch`).  The driver
also records the outcomes of the strategy invocations it actually
performed, in order, so that statements about which strategies ran are
expressible. -/

/-- A strategy result (`GridState` in the source). -/
structure GridState where
  grid : CrosswordGrid
  placedCount : Nat
  unplacedWords : List WordEntry

/-- The driver's running best: `bestGrid` (`null` initially) and
`bestCount`. -/
def updateBest (st : Option CrosswordGrid × Nat) (o : Option GridState) :
    Option CrosswordGrid × Nat :=
  match o with
  | none => st
  | some r => if r.placedCount > st.2 then (some r.grid, r.placedCount) else st

/-- Phase 1 of `generateLayout`: the greedy strategies in order, each
inside `try`/`catch`, with `break` once `bestCount === target` (the
break check runs only when the strategy did not throw). -/
def runPhase1 (target : Nat) :
    List (Option GridState) → (Option CrosswordGrid × Nat) → List (Option GridState) →
    (Option CrosswordGrid × Nat) × List (Option GridState)
  | [], st, tr => (st, tr)
  | o :: rest, st, tr =>
    let st2 := updateBest st o
    let tr2 := tr ++ [o]
    match o with
    | some _ => if st2.2 = target then (st2, tr2) else runPhase1 target rest st2 tr2
    | none => runPhase1 target rest st2 tr2

/-- Phase 2 of `generateLayout`: random restarts run when the greedy
phase left `bestCount < target`; backtracking and beam search each run
only while the best is still short of the target. -/
def runPhase2 (target : Nat) (randomRestarts backtracking beamSearch : Option GridState)
    (p1 : (Option CrosswordGrid × Nat) × List (Option GridState)) :
    (Option CrosswordGrid × Nat) × List (Option GridState) :=
  if p1.1.2 < target then
    let a := (updateBest p1.1 randomRestarts, p1.2 ++ [randomRestarts])
    let b := if a.1.2 < target then (updateBest a.1 backtracking, a.2 ++ [backtracking]) else a
    if b.1.2 < target then (updateBest b.1 beamSearch, b.2 ++ [beamSearch]) else b
  else p1

/-- The final check of `generateLayout`:
`if (!bestGrid || bestCount < 3) throw`, else return the best grid. -/
def finalize (p : (Option CrosswordGrid × Nat) × List (Option GridState)) :
    Except String CrosswordGrid × List (Option GridState) :=
  match p.1.1 with
  | none => (Except.error "Could not place enough words to create a crossword", p.2)
  | some grid =>
    if p.1.2 < 3 then
      (Except.error "Could not place enough words to create a crossword", p.2)
    else (Except.ok grid, p.2)

/-- `generateLayout(entries)` with the six strategy invocations
(three greedy orderings, random restarts, backtracking, beam search)
abstracted as their outcomes.  Returns the result — `Except.error`
models the thrown `Error` — together with the outcomes of the strategy
invocations actually performed, in order. -/
def generateLayout (entries : List WordEntry)
    (greedyLongest greedyConnections greedyBalanced randomRestarts backtracking beamSearch :
      Option GridState) :
    Except String CrosswordGrid × List (Option GridState) :=
  if entries.length = 0 then (Except.error "No words provided", [])
  else
    finalize (runPhase2 (entries.map normalizeWordEntry).length
      randomRestarts backtracking beamSearch
      (runPhase1 (entries.map normalizeWordEntry).length
        [greedyLongest, greedyConnections, greedyBalanced] (none, 0) []))

/-- The best placed-word count achieved across a list of strategy
outcomes (0 when none succeeded). -/
def bestAchieved (outcomes : List (Option GridState)) : Nat :=
  outcomes.foldl
    (fun m o => match o with | none => m | some r => max m r.placedCount) 0

/-- The driver invariant: the running best count is the best achieved
among the attempted outcomes so far, `bestGrid` is null only while that
best is 0, and a non-null `bestGrid` is the grid of some attempted
successful outcome whose count is the running best. -/
def driverInv (st : Option CrosswordGrid × Nat) (tr : List (Option GridState)) : Prop :=
  st.2 = bestAchieved tr ∧ (st.1 = none → st.2 = 0) ∧
  (∀ gr, st.1 = some gr →
    ∃ o ∈ tr, ∃ r : GridState, o = some r ∧ r.grid = gr ∧ r.placedCount = st.2)


end WordPlacementService

/-! ## Spec-side predicates

These definitions follow the words of the specification claims (not the
source); the refinement theorems below compare them with the embedded
source functions. -/

open WordPlacementService

/-- Spec condition 1 for the validator: every cell of the word's
footprint lies within grid bounds. -/
def specFootprintInBounds (g : CrosswordGrid) (word : List Char) (opt : PlacementOption) : Prop :=
  ∀ i ∈ List.range word.length,
    g.isInBounds (stepRow opt.direction opt.row i) (stepCol opt.direction opt.col i) = true

/-- The spec condition on one footprint cell: if the cell is occupied
its character equals the word's character at that position, and if it
is empty both cells immediately perpendicular-adjacent to it are
empty. -/
def cellOkAt (g : CrosswordGrid) (word : List Char) (opt : PlacementOption) (i : Nat) : Prop :=
  (g.getCell (stepRow opt.direction opt.row i) (stepCol opt.direction opt.col i) ≠ ' ' →
    g.getCell (stepRow opt.direction opt.row i) (stepCol opt.direction opt.col i) =
      word.getD i ' ') ∧
  (g.getCell (stepRow opt.direction opt.row i) (stepCol opt.direction opt.col i) = ' ' →
    (if opt.direction = Direction.horizontal then
       g.isEmpty (stepRow opt.direction opt.row i - 1) (stepCol opt.direction opt.col i) = true ∧
       g.isEmpty (stepRow opt.direction opt.row i + 1) (stepCol opt.direction opt.col i) = true
     else
       g.isEmpty (stepRow opt.direction opt.row i) (stepCol opt.direction opt.col i - 1) = true ∧
       g.isEmpty (stepRow opt.direction opt.row i) (stepCol opt.direction opt.col i + 1) = true))

/-- Spec condition 2 for the validator: every footprint cell satisfies
`cellOkAt`. -/
def specCellsCompatible (g : CrosswordGrid) (word : List Char) (opt : PlacementOption) : Prop :=
  ∀ i ∈ List.range word.length, cellOkAt g word opt i

/-- Spec condition 3 for the validator: at least one footprint cell is
occupied (intersection count ≥ 1). -/
def specHasIntersection (g : CrosswordGrid) (word : List Char) (opt : PlacementOption) : Prop :=
  ∃ i ∈ List.range word.length,
    g.getCell (stepRow opt.direction opt.row i) (stepCol opt.direction opt.col i) ≠ ' '

/-- Spec condition 4 for the validator: the cell immediately before the
word's start and the cell immediately after its end along its
orientation are both empty. -/
def specEndsFree (g : CrosswordGrid) (word : List Char) (opt : PlacementOption) : Prop :=
  match opt.direction with
  | Direction.horizontal =>
    g.isEmpty opt.row (opt.col - 1) = true ∧
    g.isEmpty opt.row (opt.col + (word.length : Int) - 1 + 1) = true
  | Direction.vertical =>
    g.isEmpty (opt.row - 1) opt.col = true ∧
    g.isEmpty (opt.row + (word.length : Int) - 1 + 1) opt.col = true

/-- Does the footprint of placed word `w` cover cell `(r, c)`? -/
def coversCell (w : PlacedWord) (r c : Int) : Prop :=
  ∃ i ∈ List.range w.word.length, w.cellRow i = r ∧ w.cellCol i = c

/-- Cell `(r, c)` is covered by some placed word with a matching
character. -/
def coveredMatching (g : CrosswordGrid) (r c : Int) : Prop :=
  ∃ w ∈ g.placedWords, ∃ i ∈ List.range w.word.length,
    w.cellRow i = r ∧ w.cellCol i = c ∧ w.word.getD i ' ' = g.getCell r c

/-- The grid invariant exactly as the specification claims state it:
every occupied cell is covered by at least one placed word's footprint
with a matching character, and two words share a cell only when their
characters agree there.  Occupied cells always have in-bounds
coordinates (out-of-bounds reads return the empty marker), so the first
clause quantifies over the in-bounds cells. -/
def gridInvariant (g : CrosswordGrid) : Prop :=
  (∀ r ∈ List.range g.height.toNat, ∀ c ∈ List.range g.width.toNat,
    g.getCell r c ≠ ' ' → coveredMatching g r c) ∧
  (∀ w1 ∈ g.placedWords, ∀ w2 ∈ g.placedWords,
    ∀ i ∈ List.range w1.word.length, ∀ j ∈ List.range w2.word.length,
      w1.cellRow i = w2.cellRow j → w1.cellCol i = w2.cellCol j →
        w1.word.getD i ' ' = w2.word.getD j ' ')

/-- The strengthened ("exact paint") grid invariant: an in-bounds cell
is occupied exactly when some placed word's footprint covers it, and
every in-bounds footprint cell of every placed word holds that word's
character at that position.  This is the state produced by painting the
placed words onto an empty surface, and it implies both clauses of
`gridInvariant` at in-bounds cells. -/
def strongGridInvariant (g : CrosswordGrid) : Prop :=
  (∀ r ∈ List.range g.height.toNat, ∀ c ∈ List.range g.width.toNat,
    (g.getCell r c ≠ ' ' ↔ ∃ w ∈ g.placedWords, coversCell w (r : Int) (c : Int))) ∧
  (∀ w ∈ g.placedWords, ∀ i ∈ List.range w.word.length,
    g.isInBounds (w.cellRow i) (w.cellCol i) = true →
      g.getCell (w.cellRow i) (w.cellCol i) = w.word.getD i ' ')

instance (w : PlacedWord) (r c : Int) : Decidable (coversCell w r c) := by
  unfold coversCell; infer_instance

instance (g : CrosswordGrid) (r c : Int) : Decidable (coveredMatching g r c) := by
  unfold coveredMatching; infer_instance

instance (g : CrosswordGrid) : Decidable (gridInvariant g) := by
  unfold gridInvariant; infer_instance

instance (g : CrosswordGrid) : Decidable (strongGridInvariant g) := by
  unfold strongGridInvariant; infer_instance

instance (g : CrosswordGrid) (word : List Char) (opt : PlacementOption) :
    Decidable (specFootprintInBounds g word opt) := by
  unfold specFootprintInBounds; infer_instance

instance (g : CrosswordGrid) (word : List Char) (opt : PlacementOption) (i : Nat) :
    Decidable (cellOkAt g word opt i) := by
  unfold cellOkAt; infer_instance

instance (g : CrosswordGrid) (word : List Char) (opt : PlacementOption) :
    Decidable (specCellsCompatible g word opt) := by
  unfold specCellsCompatible; infer_instance

instance (g : CrosswordGrid) (word : List Char) (opt : PlacementOption) :
    Decidable (specHasIntersection g word opt) := by
  unfold specHasIntersection; infer_instance

instance (g : CrosswordGrid) (word : List Char) (opt : PlacementOption) :
    Decidable (specEndsFree g word opt) := by
  unfold specEndsFree
  cases opt.direction <;> infer_instance

/-! ## Concrete instances used by counterexamples and witnesses -/

/-- The word AB placed horizontally at the origin. -/
def pwAB : PlacedWord :=
  { word := ['A', 'B'], clue := "", row := 0, col := 0
    direction := Direction.horizontal, number := 1 }

/-- The word AX placed horizontally at the origin (a candidate). -/
def pwAX : PlacedWord :=
  { word := ['A', 'X'], clue := "", row := 0, col := 0
    direction := Direction.horizontal, number := 0 }

/-- The candidate placement of `pwAX`. -/
def optAX : PlacementOption :=
  { row := 0, col := 0, direction := Direction.horizontal }

/-- A 4×4 grid whose placed-word list contains `pwAB` but whose surface
holds only the letter at (0,0): cell (0,1) is empty although the
footprint of `pwAB` covers it.  This state satisfies the claimed
`gridInvariant` (the only occupied cell is covered with a matching
character) but not the strengthened invariant. -/
def gridStale : CrosswordGrid :=
  { width := 4, height := 4
    surface := fun r c => if r = 0 ∧ c = 0 then 'A' else ' '
    placedWords := [pwAB] }

/-- A 4×4 grid with `pwAB` properly painted: the exact-paint state. -/
def gridAB : CrosswordGrid :=
  { width := 4, height := 4
    surface := fun r c =>
      if r = 0 ∧ c = 0 then 'A' else if r = 0 ∧ c = 1 then 'B' else ' '
    placedWords := [pwAB] }

/-- The word BD placed vertically from (0,1) (a candidate crossing
`pwAB` at its B). -/
def pwBD : PlacedWord :=
  { word := ['B', 'D'], clue := "", row := 0, col := 1
    direction := Direction.vertical, number := 0 }

/-- The candidate placement of `pwBD`. -/
def optBD : PlacementOption :=
  { row := 0, col := 1, direction := Direction.vertical }

/-- A concrete entry whose answer normalizes to the empty string. -/
def entryDigits : WordEntry := { clue := "digits", answer := ['1', '2', '3'] }

/-- A concrete two-letter entry. -/
def entryAB : WordEntry := { clue := "ab", answer := ['A', 'B'] }

/-! ## Basic grid lemmas -/

namespace CrosswordGrid

theorem isInBounds_iff (g : CrosswordGrid) (r c : Int) :
    g.isInBounds r c = true ↔ 0 ≤ r ∧ r < g.height ∧ 0 ≤ c ∧ c < g.width := by
  simp [isInBounds]

theorem getCell_of_not_inBounds (g : CrosswordGrid) (r c : Int)
    (h : ¬ g.isInBounds r c = true) : g.getCell r c = ' ' := by
  unfold getCell
  simp [h]

theorem isEmpty_iff (g : CrosswordGrid) (r c : Int) :
    g.isEmpty r c = true ↔ g.getCell r c = ' ' := by
  simp [isEmpty]

@[simp] theorem setCell_width (g : CrosswordGrid) (r c : Int) (v : Char) :
    (g.setCell r c v).width = g.width := by
  unfold setCell; split <;> rfl

@[simp] theorem setCell_height (g : CrosswordGrid) (r c : Int) (v : Char) :
    (g.setCell r c v).height = g.height := by
  unfold setCell; split <;> rfl

@[simp] theorem setCell_placedWords (g : CrosswordGrid) (r c : Int) (v : Char) :
    (g.setCell r c v).placedWords = g.placedWords := by
  unfold setCell; split <;> rfl

@[simp] theorem isInBounds_setCell (g : CrosswordGrid) (r c r' c' : Int) (v : Char) :
    (g.setCell r c v).isInBounds r' c' = g.isInBounds r' c' := by
  unfold isInBounds
  rw [setCell_width, setCell_height]

theorem getCell_setCell_ne (g : CrosswordGrid) (r c r' c' : Int) (v : Char)
    (h : ¬ (r' = r ∧ c' = c)) :
    (g.setCell r c v).getCell r' c' = g.getCell r' c' := by
  unfold setCell getCell
  split
  · simp only [isInBounds]
    split
    · simp [h]
    · rfl
  · rfl

theorem getCell_setCell_self (g : CrosswordGrid) (r c : Int) (v : Char)
    (h : g.isInBounds r c = true) :
    (g.setCell r c v).getCell r c = v := by
  unfold setCell getCell
  rw [if_pos h]
  have h2 : isInBounds { g with surface := fun x y => if x = r ∧ y = c then v else g.surface x y } r c = true := h
  rw [if_pos h2]
  simp

end CrosswordGrid

/-- Distinct footprint indices of one word occupy distinct cells. -/
theorem PlacedWord.cell_inj (w : PlacedWord) {i j : Nat}
    (hr : w.cellRow i = w.cellRow j) (hc : w.cellCol i = w.cellCol j) : i = j := by
  cases hd : w.direction <;>
    simp [PlacedWord.cellRow, PlacedWord.cellCol, stepRow, stepCol, hd] at hr hc <;>
    omega

namespace CrosswordGrid

/-! Lemmas about the painting fold of `addPlacedWord`. -/

theorem paintFold_width (w : PlacedWord) (L : List Nat) (g : CrosswordGrid) :
    (L.foldl (fun acc i => acc.setCell (w.cellRow i) (w.cellCol i) (w.word.getD i ' ')) g).width
      = g.width := by
  induction L generalizing g with
  | nil => rfl
  | cons i rest ih => rw [List.foldl_cons, ih, setCell_width]

theorem paintFold_height (w : PlacedWord) (L : List Nat) (g : CrosswordGrid) :
    (L.foldl (fun acc i => acc.setCell (w.cellRow i) (w.cellCol i) (w.word.getD i ' ')) g).height
      = g.height := by
  induction L generalizing g with
  | nil => rfl
  | cons i rest ih => rw [List.foldl_cons, ih, setCell_height]

theorem paintFold_placedWords (w : PlacedWord) (L : List Nat) (g : CrosswordGrid) :
    (L.foldl (fun acc i => acc.setCell (w.cellRow i) (w.cellCol i) (w.word.getD i ' ')) g).placedWords
      = g.placedWords := by
  induction L generalizing g with
  | nil => rfl
  | cons i rest ih => rw [List.foldl_cons, ih, setCell_placedWords]

theorem paintFold_getCell_off (w : PlacedWord) (L : List Nat) (g : CrosswordGrid) (r c : Int)
    (h : ∀ i ∈ L, ¬(w.cellRow i = r ∧ w.cellCol i = c)) :
    (L.foldl (fun acc i => acc.setCell (w.cellRow i) (w.cellCol i) (w.word.getD i ' ')) g).getCell r c
      = g.getCell r c := by
  induction L generalizing g with
  | nil => rfl
  | cons i rest ih =>
    rw [List.foldl_cons, ih _ (fun j hj => h j (List.mem_cons_of_mem _ hj)),
      getCell_setCell_ne _ _ _ _ _ _
        (fun hh => h i (List.mem_cons_self i rest) ⟨hh.1.symm, hh.2.symm⟩)]

theorem paintFold_getCell_hit (w : PlacedWord) (L : List Nat) (g : CrosswordGrid) (r c : Int)
    (j : Nat) (hnd : L.Nodup) (hj : j ∈ L) (hr : w.cellRow j = r) (hc : w.cellCol j = c)
    (hib : g.isInBounds r c = true) :
    (L.foldl (fun acc i => acc.setCell (w.cellRow i) (w.cellCol i) (w.word.getD i ' ')) g).getCell r c
      = w.word.getD j ' ' := by
  induction L generalizing g with
  | nil => cases hj
  | cons i rest ih =>
    rw [List.foldl_cons]
    rcases List.mem_cons.mp hj with rfl | hjr
    · have hnotin : ∀ k ∈ rest, ¬(w.cellRow k = r ∧ w.cellCol k = c) := by
        intro k hk hkc
        have hkj : k = j := PlacedWord.cell_inj w (hkc.1.trans hr.symm) (hkc.2.trans hc.symm)
        exact absurd hk (hkj ▸ (List.nodup_cons.mp hnd).1)
      rw [paintFold_getCell_off w rest _ r c hnotin, hr, hc]
      exact getCell_setCell_self g r c _ hib
    · have hij : i ≠ j := by
        intro hij
        exact absurd hjr (hij ▸ (List.nodup_cons.mp hnd).1)
      refine ih _ (List.nodup_cons.mp hnd).2 hjr ?_
      rw [isInBounds_setCell]
      exact hib

/-! Lemmas about the clearing fold of `removeLastPlacedWord`. -/

theorem clearFold_width (pws : List PlacedWord) (w : PlacedWord) (L : List Nat)
    (g : CrosswordGrid) :
    (L.foldl (fun acc i =>
      if coveredBy pws (w.cellRow i) (w.cellCol i) then acc
      else acc.setCell (w.cellRow i) (w.cellCol i) ' ') g).width = g.width := by
  induction L generalizing g with
  | nil => rfl
  | cons i rest ih =>
    rw [List.foldl_cons, ih]
    split <;> simp

theorem clearFold_height (pws : List PlacedWord) (w : PlacedWord) (L : List Nat)
    (g : CrosswordGrid) :
    (L.foldl (fun acc i =>
      if coveredBy pws (w.cellRow i) (w.cellCol i) then acc
      else acc.setCell (w.cellRow i) (w.cellCol i) ' ') g).height = g.height := by
  induction L generalizing g with
  | nil => rfl
  | cons i rest ih =>
    rw [List.foldl_cons, ih]
    split <;> simp

theorem clearFold_placedWords (pws : List PlacedWord) (w : PlacedWord) (L : List Nat)
    (g : CrosswordGrid) :
    (L.foldl (fun acc i =>
      if coveredBy pws (w.cellRow i) (w.cellCol i) then acc
      else acc.setCell (w.cellRow i) (w.cellCol i) ' ') g).placedWords = g.placedWords := by
  induction L generalizing g with
  | nil => rfl
  | cons i rest ih =>
    rw [List.foldl_cons, ih]
    split <;> simp

theorem clearFold_getCell_off (pws : List PlacedWord) (w : PlacedWord) (L : List Nat)
    (g : CrosswordGrid) (r c : Int)
    (h : ∀ i ∈ L, ¬(w.cellRow i = r ∧ w.cellCol i = c)) :
    (L.foldl (fun acc i =>
      if coveredBy pws (w.cellRow i) (w.cellCol i) then acc
      else acc.setCell (w.cellRow i) (w.cellCol i) ' ') g).getCell r c = g.getCell r c := by
  induction L generalizing g with
  | nil => rfl
  | cons i rest ih =>
    rw [List.foldl_cons, ih _ (fun j hj => h j (List.mem_cons_of_mem _ hj))]
    split
    · rfl
    · exact getCell_setCell_ne _ _ _ _ _ _
        (fun hh => h i (List.mem_cons_self i rest) ⟨hh.1.symm, hh.2.symm⟩)

theorem clearFold_getCell_hit_covered (pws : List PlacedWord) (w : PlacedWord) (L : List Nat)
    (g : CrosswordGrid) (r c : Int) (j : Nat) (hnd : L.Nodup) (hj : j ∈ L)
    (hr : w.cellRow j = r) (hc : w.cellCol j = c) (hcov : coveredBy pws r c = true) :
    (L.foldl (fun acc i =>
      if coveredBy pws (w.cellRow i) (w.cellCol i) then acc
      else acc.setCell (w.cellRow i) (w.cellCol i) ' ') g).getCell r c = g.getCell r c := by
  induction L generalizing g with
  | nil => rfl
  | cons i rest ih =>
    rw [List.foldl_cons]
    rcases List.mem_cons.mp hj with rfl | hjr
    · have hnotin : ∀ k ∈ rest, ¬(w.cellRow k = r ∧ w.cellCol k = c) := by
        intro k hk hkc
        have hkj : k = j := PlacedWord.cell_inj w (hkc.1.trans hr.symm) (hkc.2.trans hc.symm)
        exact absurd hk (hkj ▸ (List.nodup_cons.mp hnd).1)
      rw [clearFold_getCell_off pws w rest _ r c hnotin, hr, hc, if_pos hcov]
    · rw [ih _ (List.nodup_cons.mp hnd).2 hjr]
      split
      · rfl
      · refine getCell_setCell_ne _ _ _ _ _ _ (fun hh => ?_)
        have hij : i = j := PlacedWord.cell_inj w (hh.1.symm.trans hr.symm) (hh.2.symm.trans hc.symm)
        exact absurd hjr (hij ▸ (List.nodup_cons.mp hnd).1)

theorem clearFold_getCell_hit_uncovered (pws : List PlacedWord) (w : PlacedWord) (L : List Nat)
    (g : CrosswordGrid) (r c : Int) (j : Nat) (hnd : L.Nodup) (hj : j ∈ L)
    (hr : w.cellRow j = r) (hc : w.cellCol j = c) (hcov : coveredBy pws r c = false)
    (hib : g.isInBounds r c = true) :
    (L.foldl (fun acc i =>
      if coveredBy pws (w.cellRow i) (w.cellCol i) then acc
      else acc.setCell (w.cellRow i) (w.cellCol i) ' ') g).getCell r c = ' ' := by
  induction L generalizing g with
  | nil => cases hj
  | cons i rest ih =>
    rw [List.foldl_cons]
    rcases List.mem_cons.mp hj with rfl | hjr
    · have hnotin : ∀ k ∈ rest, ¬(w.cellRow k = r ∧ w.cellCol k = c) := by
        intro k hk hkc
        have hkj : k = j := PlacedWord.cell_inj w (hkc.1.trans hr.symm) (hkc.2.trans hc.symm)
        exact absurd hk (hkj ▸ (List.nodup_cons.mp hnd).1)
      rw [clearFold_getCell_off pws w rest _ r c hnotin, hr, hc,
        if_neg (fun hh => Bool.noConfusion (hcov ▸ hh))]
      exact getCell_setCell_self g r c _ hib
    · refine ih _ (List.nodup_cons.mp hnd).2 hjr ?_
      split
      · exact hib
      · rw [isInBounds_setCell]; exact hib

/-! Characterization of `addPlacedWord`. -/

theorem addPlacedWord_width (g : CrosswordGrid) (w : PlacedWord) :
    (g.addPlacedWord w).width = g.width := by
  unfold addPlacedWord
  rw [paintFold_width]

theorem addPlacedWord_height (g : CrosswordGrid) (w : PlacedWord) :
    (g.addPlacedWord w).height = g.height := by
  unfold addPlacedWord
  rw [paintFold_height]

theorem addPlacedWord_placedWords (g : CrosswordGrid) (w : PlacedWord) :
    (g.addPlacedWord w).placedWords = g.placedWords ++ [w] := by
  unfold addPlacedWord
  rw [paintFold_placedWords]

theorem addPlacedWord_getCell_off (g : CrosswordGrid) (w : PlacedWord) (r c : Int)
    (h : ∀ i ∈ List.range w.word.length, ¬(w.cellRow i = r ∧ w.cellCol i = c)) :
    (g.addPlacedWord w).getCell r c = g.getCell r c := by
  unfold addPlacedWord
  rw [paintFold_getCell_off _ _ _ _ _ h]
  rfl

theorem addPlacedWord_getCell_hit (g : CrosswordGrid) (w : PlacedWord) (r c : Int)
    (j : Nat) (hj : j ∈ List.range w.word.length)
    (hr : w.cellRow j = r) (hc : w.cellCol j = c) (hib : g.isInBounds r c = true) :
    (g.addPlacedWord w).getCell r c = w.word.getD j ' ' := by
  unfold addPlacedWord
  exact paintFold_getCell_hit w _ _ r c j (List.nodup_range _) hj hr hc hib

/-- `removeLastPlacedWord` on a grid whose word list ends in `w`: pops
`w` and runs the clearing fold against the remaining words. -/
theorem removeLast_concat_eq (g : CrosswordGrid) (init : List PlacedWord) (w : PlacedWord)
    (h : g.placedWords = init ++ [w]) :
    g.removeLastPlacedWord =
      (some w,
       (List.range w.word.length).foldl
         (fun acc i =>
           if coveredBy init (w.cellRow i) (w.cellCol i) then acc
           else acc.setCell (w.cellRow i) (w.cellCol i) ' ')
         { g with placedWords := init }) := by
  unfold removeLastPlacedWord
  rw [h, List.getLast?_concat]
  show (some w, _) = _
  rw [List.dropLast_concat]

end CrosswordGrid

/-! ## The scan loop of the validator -/

namespace WordPlacementService

/-- Unfolding equation of `scanCells` on a cons cell. -/
theorem scanCells_cons (g : CrosswordGrid) (word : List Char) (opt : PlacementOption)
    (i : Nat) (rest : List Nat) :
    scanCells g word opt (i :: rest) =
      if g.getCell (stepRow opt.direction opt.row i) (stepCol opt.direction opt.col i) ≠ ' ' then
        if g.getCell (stepRow opt.direction opt.row i) (stepCol opt.direction opt.col i) =
            word.getD i ' ' then
          (scanCells g word opt rest).map (· + 1)
        else none
      else
        if (if opt.direction = Direction.horizontal then
              g.isEmpty (stepRow opt.direction opt.row i - 1) (stepCol opt.direction opt.col i) &&
                g.isEmpty (stepRow opt.direction opt.row i + 1) (stepCol opt.direction opt.col i)
            else
              g.isEmpty (stepRow opt.direction opt.row i) (stepCol opt.direction opt.col i - 1) &&
                g.isEmpty (stepRow opt.direction opt.row i) (stepCol opt.direction opt.col i + 1)) = true
        then scanCells g word opt rest
        else none := rfl

/-- Characterization of the cell loop: it returns a count exactly when
every listed footprint cell passes the per-cell checks, and the count
is the number of occupied listed cells. -/
theorem scanCells_eq_some_iff (g : CrosswordGrid) (word : List Char) (opt : PlacementOption)
    (L : List Nat) (n : Nat) :
    scanCells g word opt L = some n ↔
      ((∀ i ∈ L, cellOkAt g word opt i) ∧
       n = L.countP (fun i =>
         !(g.isEmpty (stepRow opt.direction opt.row i) (stepCol opt.direction opt.col i)))) := by
  induction L generalizing n with
  | nil => simp [scanCells, eq_comm]
  | cons i rest ih =>
    rw [scanCells_cons]
    by_cases hocc : g.getCell (stepRow opt.direction opt.row i) (stepCol opt.direction opt.col i) = ' '
    · rw [if_neg (show ¬ (g.getCell (stepRow opt.direction opt.row i)
          (stepCol opt.direction opt.col i) ≠ ' ') from fun h => h hocc)]
      have hcnt : (List.countP (fun i =>
          !(g.isEmpty (stepRow opt.direction opt.row i) (stepCol opt.direction opt.col i)))
          (i :: rest)) = List.countP (fun i =>
          !(g.isEmpty (stepRow opt.direction opt.row i) (stepCol opt.direction opt.col i))) rest := by
        rw [List.countP_cons]
        simp [CrosswordGrid.isEmpty, hocc]
      by_cases hperp : (if opt.direction = Direction.horizontal then
            g.isEmpty (stepRow opt.direction opt.row i - 1) (stepCol opt.direction opt.col i) &&
              g.isEmpty (stepRow opt.direction opt.row i + 1) (stepCol opt.direction opt.col i)
          else
            g.isEmpty (stepRow opt.direction opt.row i) (stepCol opt.direction opt.col i - 1) &&
              g.isEmpty (stepRow opt.direction opt.row i) (stepCol opt.direction opt.col i + 1)) = true
      · have hcell : cellOkAt g word opt i := by
          refine ⟨fun hne => absurd hocc hne, fun _ => ?_⟩
          by_cases hd : opt.direction = Direction.horizontal
          · rw [if_pos hd] at hperp ⊢
            exact Bool.and_eq_true_iff.mp hperp
          · rw [if_neg hd] at hperp ⊢
            exact Bool.and_eq_true_iff.mp hperp
        rw [if_pos hperp, ih, hcnt]
        constructor
        · rintro ⟨h1, h2⟩
          refine ⟨fun j hj => ?_, h2⟩
          rcases List.mem_cons.mp hj with rfl | hj
          · exact hcell
          · exact h1 j hj
        · rintro ⟨h1, h2⟩
          exact ⟨fun j hj => h1 j (List.mem_cons_of_mem _ hj), h2⟩
      · rw [if_neg hperp]
        constructor
        · intro h; exact absurd h (by simp)
        · rintro ⟨h1, _⟩
          exfalso
          have hok := (h1 i (List.mem_cons_self i rest)).2 hocc
          by_cases hd : opt.direction = Direction.horizontal
          · rw [if_pos hd] at hok hperp
            exact hperp (by rw [hok.1, hok.2]; rfl)
          · rw [if_neg hd] at hok hperp
            exact hperp (by rw [hok.1, hok.2]; rfl)
    · rw [if_pos hocc]
      have hcnt : (List.countP (fun i =>
          !(g.isEmpty (stepRow opt.direction opt.row i) (stepCol opt.direction opt.col i)))
          (i :: rest)) = List.countP (fun i =>
          !(g.isEmpty (stepRow opt.direction opt.row i) (stepCol opt.direction opt.col i))) rest + 1 := by
        rw [List.countP_cons]
        simp [CrosswordGrid.isEmpty, hocc]
      by_cases hmatch : g.getCell (stepRow opt.direction opt.row i) (stepCol opt.direction opt.col i) = word.getD i ' '
      · have hcell : cellOkAt g word opt i :=
          ⟨fun _ => hmatch, fun h => absurd h hocc⟩
        rw [if_pos hmatch, hcnt]
        constructor
        · intro h
          rcases Option.map_eq_some'.mp h with ⟨m, hm, rfl⟩
          rcases (ih m).mp hm with ⟨h1, h2⟩
          refine ⟨fun j hj => ?_, by omega⟩
          rcases List.mem_cons.mp hj with rfl | hj
          · exact hcell
          · exact h1 j hj
        · rintro ⟨h1, h2⟩
          have hm : scanCells g word opt rest = some (List.countP (fun i =>
              !(g.isEmpty (stepRow opt.direction opt.row i) (stepCol opt.direction opt.col i))) rest) :=
            (ih _).mpr ⟨fun j hj => h1 j (List.mem_cons_of_mem _ hj), rfl⟩
          rw [hm]
          simp [h2]
      · rw [if_neg hmatch]
        constructor
        · intro h; exact absurd h (by simp)
        · rintro ⟨h1, _⟩
          exact absurd ((h1 i (List.mem_cons_self i rest)).1 hocc) hmatch

/-- For a non-empty word, the source's bounds check on the start and
end cells is equivalent to the spec's condition that the whole
footprint lies in bounds. -/
theorem bounds_check_iff_footprint (g : CrosswordGrid) (word : List Char)
    (opt : PlacementOption) (hlen : word.length ≠ 0) :
    (g.isInBounds opt.row opt.col && g.isInBounds (endRowOf word opt) (endColOf word opt)) = true
      ↔ specFootprintInBounds g word opt := by
  rw [Bool.and_eq_true_iff]
  constructor
  · rintro ⟨h0, h1⟩ i hi
    rw [List.mem_range] at hi
    rw [CrosswordGrid.isInBounds_iff] at h0 h1 ⊢
    cases hd : opt.direction <;>
      simp [stepRow, stepCol, endRowOf, endColOf, hd] at h0 h1 ⊢ <;>
      omega
  · intro h
    have h0 := h 0 (List.mem_range.mpr (Nat.pos_of_ne_zero hlen))
    have h1 := h (word.length - 1) (List.mem_range.mpr (by omega))
    rw [CrosswordGrid.isInBounds_iff] at h0 h1
    constructor <;> rw [CrosswordGrid.isInBounds_iff] <;>
      cases hd : opt.direction <;>
      simp [stepRow, stepCol, endRowOf, endColOf, hd] at h0 h1 ⊢ <;>
      omega

/-- The final before/after check of `canPlaceWord` is the spec's
ends-free condition. -/
theorem endsCheck_iff_specEndsFree (g : CrosswordGrid) (word : List Char)
    (opt : PlacementOption) :
    (if opt.direction = Direction.horizontal then
       g.isEmpty opt.row (opt.col - 1) && g.isEmpty opt.row (endColOf word opt + 1)
     else
       g.isEmpty (opt.row - 1) opt.col && g.isEmpty (endRowOf word opt + 1) opt.col) = true
    ↔ specEndsFree g word opt := by
  unfold specEndsFree
  by_cases hd : opt.direction = Direction.horizontal
  · rw [if_pos hd, hd]
    show _ ↔ (g.isEmpty opt.row (opt.col - 1) = true ∧
      g.isEmpty opt.row (opt.col + (word.length : Int) - 1 + 1) = true)
    rw [Bool.and_eq_true_iff]
    rw [show endColOf word opt + 1 = opt.col + (word.length : Int) - 1 + 1 by
      unfold endColOf; rw [if_pos hd]; ring]
  · have hv : opt.direction = Direction.vertical := by
      cases hdd : opt.direction
      · exact absurd hdd hd
      · rfl
    rw [if_neg hd, hv]
    show _ ↔ (g.isEmpty (opt.row - 1) opt.col = true ∧
      g.isEmpty (opt.row + (word.length : Int) - 1 + 1) opt.col = true)
    rw [Bool.and_eq_true_iff]
    rw [show endRowOf word opt + 1 = opt.row + (word.length : Int) - 1 + 1 by
      unfold endRowOf; rw [if_pos hv]; ring]

end WordPlacementService

/-- Shared helper: full characterization of the validator against the
four spec conditions. -/
theorem canPlaceWord_true_iff_conditions (g : CrosswordGrid) (word : List Char)
    (opt : PlacementOption) :
    WordPlacementService.canPlaceWord g word opt = true ↔
      (specFootprintInBounds g word opt ∧ specCellsCompatible g word opt ∧
       specHasIntersection g word opt ∧ specEndsFree g word opt) := by
  rcases Nat.eq_zero_or_pos word.length with hlen | hlen
  · have hno : ¬ specHasIntersection g word opt := by
      unfold specHasIntersection
      rw [hlen]
      simp
    have hfalse : WordPlacementService.canPlaceWord g word opt = false := by
      unfold WordPlacementService.canPlaceWord
      split
      · rfl
      · rw [hlen]
        show (match WordPlacementService.scanCells g word opt (List.range 0) with
          | none => false
          | some intersectionCount => _) = false
        simp [WordPlacementService.scanCells]
    rw [hfalse]
    simp
    intro _ _ h
    exact absurd h hno
  · unfold WordPlacementService.canPlaceWord
    by_cases hb : (g.isInBounds opt.row opt.col &&
        g.isInBounds (WordPlacementService.endRowOf word opt)
          (WordPlacementService.endColOf word opt)) = true
    · rw [hb]
      show (match WordPlacementService.scanCells g word opt (List.range word.length) with
        | none => false
        | some intersectionCount => _) = true ↔ _
      have hfoot := (WordPlacementService.bounds_check_iff_footprint g word opt
        (Nat.pos_iff_ne_zero.mp hlen)).mp hb
      cases hscan : WordPlacementService.scanCells g word opt (List.range word.length) with
      | none =>
        show false = true ↔ _
        constructor
        · intro h; exact Bool.noConfusion h
        · rintro ⟨_, hcomp, _, _⟩
          have := (WordPlacementService.scanCells_eq_some_iff g word opt
            (List.range word.length) _).mpr ⟨hcomp, rfl⟩
          rw [hscan] at this
          exact Option.noConfusion this
      | some n =>
        rcases (WordPlacementService.scanCells_eq_some_iff g word opt
          (List.range word.length) n).mp hscan with ⟨hcomp, hn⟩
        show (if n = 0 then false
          else
            if opt.direction = Direction.horizontal then
              g.isEmpty opt.row (opt.col - 1) &&
                g.isEmpty opt.row (WordPlacementService.endColOf word opt + 1)
            else
              g.isEmpty (opt.row - 1) opt.col &&
                g.isEmpty (WordPlacementService.endRowOf word opt + 1) opt.col) = true ↔ _
        by_cases hn0 : n = 0
        · rw [if_pos hn0]
          constructor
          · intro h; exact Bool.noConfusion h
          · rintro ⟨_, _, hint, _⟩
            exfalso
            rcases hint with ⟨i, hi, hocc⟩
            have hz := List.countP_eq_zero.mp (show List.countP (fun i =>
                !(g.isEmpty (stepRow opt.direction opt.row i)
                  (stepCol opt.direction opt.col i))) (List.range word.length) = 0 by omega)
            have := hz i hi
            simp [CrosswordGrid.isEmpty, hocc] at this
        · rw [if_neg hn0]
          have hint : specHasIntersection g word opt := by
            have hpos : 0 < List.countP (fun i =>
                !(g.isEmpty (stepRow opt.direction opt.row i)
                  (stepCol opt.direction opt.col i))) (List.range word.length) := by omega
            rcases List.countP_pos_iff.mp hpos with ⟨i, hi, hp⟩
            refine ⟨i, hi, ?_⟩
            simpa [CrosswordGrid.isEmpty] using hp
          rw [WordPlacementService.endsCheck_iff_specEndsFree]
          constructor
          · intro hends
            exact ⟨hfoot, hcomp, hint, hends⟩
          · rintro ⟨_, _, _, hends⟩
            exact hends
    · rw [Bool.not_eq_true] at hb
      rw [hb]
      show false = true ↔ _
      constructor
      · intro h; exact Bool.noConfusion h
      · rintro ⟨hfoot, _, _, _⟩
        exact absurd ((WordPlacementService.bounds_check_iff_footprint g word opt
          (Nat.pos_iff_ne_zero.mp hlen)).mpr hfoot) (by rw [hb]; exact fun h => Bool.noConfusion h)

/-- `coveredBy` decides exactly the coverage of a cell by some word of
the list. -/
theorem coveredBy_iff (pws : List PlacedWord) (r c : Int) :
    CrosswordGrid.coveredBy pws r c = true ↔ ∃ w ∈ pws, coversCell w r c := by
  unfold CrosswordGrid.coveredBy coversCell
  simp [List.any_eq_true]

/-- `isInBounds` only depends on the dimensions. -/
theorem isInBounds_congr (g g' : CrosswordGrid) (hW : g.width = g'.width)
    (hH : g.height = g'.height) (r c : Int) :
    g.isInBounds r c = g'.isInBounds r c := by
  unfold CrosswordGrid.isInBounds
  rw [hW, hH]

/-- A character read from inside a word is a member of the word. -/
theorem getD_mem_of_lt (l : List Char) (j : Nat) (hj : j < l.length) :
    l.getD j ' ' ∈ l := by
  rw [List.getD_eq_getElem l ' ' hj]
  exact List.getElem_mem hj

/-- C2 (amended).  The strengthened grid invariant is preserved by
`addPlacedWord` for every accepted placement of a word that does not
contain the empty marker: if an in-bounds cell of `g` is occupied
exactly when some placed word covers it and every placed word's
in-bounds footprint cell holds its character, then after adding a
`canPlaceWord`-accepted word the same holds. -/
theorem addPlacedWord_preserves_strongInvariant (g : CrosswordGrid) (pw : PlacedWord)
    (hinv : strongGridInvariant g) (hch : ' ' ∉ pw.word)
    (hacc : WordPlacementService.canPlaceWord g pw.word pw.toOption = true) :
    strongGridInvariant (g.addPlacedWord pw) := by
  rcases (canPlaceWord_true_iff_conditions g pw.word pw.toOption).mp hacc with
    ⟨hfoot, hcomp, hint, hends⟩
  have hcompC : ∀ j ∈ List.range pw.word.length,
      (g.getCell (pw.cellRow j) (pw.cellCol j) ≠ ' ' →
        g.getCell (pw.cellRow j) (pw.cellCol j) = pw.word.getD j ' ') :=
    fun j hj => (hcomp j hj).1
  have hW := CrosswordGrid.addPlacedWord_width g pw
  have hH := CrosswordGrid.addPlacedWord_height g pw
  have hPW := CrosswordGrid.addPlacedWord_placedWords g pw
  have hIB : ∀ r c : Int, (g.addPlacedWord pw).isInBounds r c = g.isInBounds r c :=
    fun r c => isInBounds_congr _ _ hW hH r c
  constructor
  · intro r hr c hc
    rw [hH] at hr
    rw [hW] at hc
    rw [List.mem_range] at hr hc
    have hibg : g.isInBounds (r : Int) (c : Int) = true := by
      rw [CrosswordGrid.isInBounds_iff]
      omega
    rw [hPW]
    by_cases hcov : ∃ j ∈ List.range pw.word.length,
        pw.cellRow j = (r : Int) ∧ pw.cellCol j = (c : Int)
    · rcases hcov with ⟨j, hj, hjr, hjc⟩
      rw [CrosswordGrid.addPlacedWord_getCell_hit g pw _ _ j hj hjr hjc hibg]
      have hne : pw.word.getD j ' ' ≠ ' ' := by
        intro hsp
        exact hch (hsp ▸ getD_mem_of_lt pw.word j (List.mem_range.mp hj))
      constructor
      · intro _
        exact ⟨pw, List.mem_append_right _ (List.mem_singleton.mpr rfl), j, hj, hjr, hjc⟩
      · intro _
        exact hne
    · have hoffs : ∀ j ∈ List.range pw.word.length,
          ¬(pw.cellRow j = (r : Int) ∧ pw.cellCol j = (c : Int)) :=
        fun j hj hcc => hcov ⟨j, hj, hcc.1, hcc.2⟩
      rw [CrosswordGrid.addPlacedWord_getCell_off g pw _ _ hoffs]
      constructor
      · intro hocc
        rcases (hinv.1 r (List.mem_range.mpr hr) c (List.mem_range.mpr hc)).mp hocc with
          ⟨w, hw, hcv⟩
        exact ⟨w, List.mem_append_left _ hw, hcv⟩
      · rintro ⟨w, hw, hcv⟩
        rcases List.mem_append.mp hw with hw | hw
        · exact (hinv.1 r (List.mem_range.mpr hr) c (List.mem_range.mpr hc)).mpr ⟨w, hw, hcv⟩
        · rw [List.mem_singleton] at hw
          subst hw
          rcases hcv with ⟨j, hj, hjr, hjc⟩
          exact absurd ⟨j, hj, hjr, hjc⟩ hcov
  · intro w hw i hi hib
    rw [hIB] at hib
    rw [hPW] at hw
    rcases List.mem_append.mp hw with hw | hw
    · by_cases hcov : ∃ j ∈ List.range pw.word.length,
          pw.cellRow j = w.cellRow i ∧ pw.cellCol j = w.cellCol i
      · rcases hcov with ⟨j, hj, hjr, hjc⟩
        rw [CrosswordGrid.addPlacedWord_getCell_hit g pw _ _ j hj hjr hjc hib]
        have hold := hinv.2 w hw i hi hib
        have hibb := (CrosswordGrid.isInBounds_iff g _ _).mp hib
        have hrmem : (w.cellRow i).toNat ∈ List.range g.height.toNat := by
          rw [List.mem_range]; omega
        have hcmem : (w.cellCol i).toNat ∈ List.range g.width.toNat := by
          rw [List.mem_range]; omega
        have hcast1 : (((w.cellRow i).toNat : Int)) = w.cellRow i := by omega
        have hcast2 : (((w.cellCol i).toNat : Int)) = w.cellCol i := by omega
        have hocc : g.getCell (w.cellRow i) (w.cellCol i) ≠ ' ' := by
          have hx := (hinv.1 _ hrmem _ hcmem).mpr
            ⟨w, hw, i, hi, by rw [hcast1], by rw [hcast2]⟩
          rwa [hcast1, hcast2] at hx
        have hpj : g.getCell (pw.cellRow j) (pw.cellCol j) = pw.word.getD j ' ' :=
          hcompC j hj (by rw [hjr, hjc]; exact hocc)
        rw [hjr, hjc] at hpj
        rw [← hpj]
        exact hold
      · have hoffs : ∀ j ∈ List.range pw.word.length,
            ¬(pw.cellRow j = w.cellRow i ∧ pw.cellCol j = w.cellCol i) :=
          fun j hj hcc => hcov ⟨j, hj, hcc.1, hcc.2⟩
        rw [CrosswordGrid.addPlacedWord_getCell_off g pw _ _ hoffs]
        exact hinv.2 w hw i hi hib
    · rw [List.mem_singleton] at hw
      subst hw
      exact CrosswordGrid.addPlacedWord_getCell_hit g w _ _ i hi rfl rfl hib

/-- C3 (amended).  On a grid satisfying the strengthened invariant,
adding a `canPlaceWord`-accepted word and then removing the last placed
word restores the grid exactly: the popped word is the added one, the
placed-word list equals the original, and every cell of the character
surface equals its original value. -/
theorem addPlacedWord_removeLast_roundtrip (g : CrosswordGrid) (pw : PlacedWord)
    (hinv : strongGridInvariant g)
    (hacc : WordPlacementService.canPlaceWord g pw.word pw.toOption = true) :
    ((g.addPlacedWord pw).removeLastPlacedWord).1 = some pw ∧
    ((g.addPlacedWord pw).removeLastPlacedWord).2.placedWords = g.placedWords ∧
    ∀ r c : Int, ((g.addPlacedWord pw).removeLastPlacedWord).2.getCell r c = g.getCell r c := by
  rcases (canPlaceWord_true_iff_conditions g pw.word pw.toOption).mp hacc with
    ⟨hfoot, hcomp, -, -⟩
  have hfootC : ∀ j ∈ List.range pw.word.length,
      g.isInBounds (pw.cellRow j) (pw.cellCol j) = true := hfoot
  have hcompC : ∀ j ∈ List.range pw.word.length,
      (g.getCell (pw.cellRow j) (pw.cellCol j) ≠ ' ' →
        g.getCell (pw.cellRow j) (pw.cellCol j) = pw.word.getD j ' ') :=
    fun j hj => (hcomp j hj).1
  have hW := CrosswordGrid.addPlacedWord_width g pw
  have hH := CrosswordGrid.addPlacedWord_height g pw
  have hPW := CrosswordGrid.addPlacedWord_placedWords g pw
  rw [CrosswordGrid.removeLast_concat_eq (g.addPlacedWord pw) g.placedWords pw hPW]
  have hbW : ({ g.addPlacedWord pw with placedWords := g.placedWords } : CrosswordGrid).width
      = g.width := hW
  have hbH : ({ g.addPlacedWord pw with placedWords := g.placedWords } : CrosswordGrid).height
      = g.height := hH
  refine ⟨rfl, ?_, ?_⟩
  · rw [CrosswordGrid.clearFold_placedWords]
  · intro r c
    by_cases hib : g.isInBounds r c = true
    · by_cases hcov : ∃ j ∈ List.range pw.word.length, pw.cellRow j = r ∧ pw.cellCol j = c
      · rcases hcov with ⟨j, hj, hjr, hjc⟩
        have hibb := (CrosswordGrid.isInBounds_iff g r c).mp hib
        have hrmem : r.toNat ∈ List.range g.height.toNat := by rw [List.mem_range]; omega
        have hcmem : c.toNat ∈ List.range g.width.toNat := by rw [List.mem_range]; omega
        have hcast1 : ((r.toNat : Int)) = r := by omega
        have hcast2 : ((c.toNat : Int)) = c := by omega
        by_cases hcb : CrosswordGrid.coveredBy g.placedWords r c = true
        · rw [CrosswordGrid.clearFold_getCell_hit_covered g.placedWords pw _ _ r c j
            (List.nodup_range _) hj hjr hjc hcb]
          have h1 : ({ g.addPlacedWord pw with placedWords := g.placedWords } :
              CrosswordGrid).getCell r c = (g.addPlacedWord pw).getCell r c := rfl
          rw [h1, CrosswordGrid.addPlacedWord_getCell_hit g pw r c j hj hjr hjc hib]
          rcases (coveredBy_iff _ _ _).mp hcb with ⟨w, hw, i, hi, hir, hic⟩
          have hocc : g.getCell r c ≠ ' ' := by
            have hx := (hinv.1 _ hrmem _ hcmem).mpr
              ⟨w, hw, i, hi, by rw [hcast1]; exact hir, by rw [hcast2]; exact hic⟩
            rwa [hcast1, hcast2] at hx
          have hpj := hcompC j hj (by rw [hjr, hjc]; exact hocc)
          rw [hjr, hjc] at hpj
          exact hpj.symm
        · rw [CrosswordGrid.clearFold_getCell_hit_uncovered g.placedWords pw _ _ r c j
            (List.nodup_range _) hj hjr hjc (Bool.eq_false_iff.mpr hcb)
            (by rw [isInBounds_congr _ g hbW hbH]; exact hib)]
          have hnocc : ¬ (g.getCell r c ≠ ' ') := by
            intro hocc
            rcases (hinv.1 _ hrmem _ hcmem).mp (by rwa [hcast1, hcast2]) with ⟨w, hw, hcv⟩
            apply hcb
            rw [coveredBy_iff]
            refine ⟨w, hw, ?_⟩
            rwa [hcast1, hcast2] at hcv
          push_neg at hnocc
          exact hnocc.symm
      · have hoffs : ∀ j ∈ List.range pw.word.length,
            ¬(pw.cellRow j = r ∧ pw.cellCol j = c) :=
          fun j hj hcc => hcov ⟨j, hj, hcc.1, hcc.2⟩
        rw [CrosswordGrid.clearFold_getCell_off g.placedWords pw _ _ r c hoffs]
        have h1 : ({ g.addPlacedWord pw with placedWords := g.placedWords } :
            CrosswordGrid).getCell r c = (g.addPlacedWord pw).getCell r c := rfl
        rw [h1, CrosswordGrid.addPlacedWord_getCell_off g pw _ _ hoffs]
    · have hcw : ((List.range pw.word.length).foldl
          (fun (acc : CrosswordGrid) i =>
            if CrosswordGrid.coveredBy g.placedWords (pw.cellRow i) (pw.cellCol i) then acc
            else acc.setCell (pw.cellRow i) (pw.cellCol i) ' ')
          { g.addPlacedWord pw with placedWords := g.placedWords }).width = g.width := by
        rw [CrosswordGrid.clearFold_width]
        exact hbW
      have hch2 : ((List.range pw.word.length).foldl
          (fun (acc : CrosswordGrid) i =>
            if CrosswordGrid.coveredBy g.placedWords (pw.cellRow i) (pw.cellCol i) then acc
            else acc.setCell (pw.cellRow i) (pw.cellCol i) ' ')
          { g.addPlacedWord pw with placedWords := g.placedWords }).height = g.height := by
        rw [CrosswordGrid.clearFold_height]
        exact hbH
      rw [CrosswordGrid.getCell_of_not_inBounds _ r c
          (by rw [isInBounds_congr _ g hcw hch2]; exact hib),
        CrosswordGrid.getCell_of_not_inBounds g r c hib]

/-- C2 counterexample.  A grid can satisfy the claimed invariant while
a stale covered-but-empty cell remains: `gridStale` satisfies it, the
validator accepts the word AX at the origin, yet after `addPlacedWord`
the two placed words AB and AX share cell (0,1) with different
characters, so the claimed invariant is violated. -/
theorem gridInvariant_not_preserved_counterexample :
    gridInvariant gridStale ∧
    WordPlacementService.canPlaceWord gridStale pwAX.word pwAX.toOption = true ∧
    ¬ gridInvariant (gridStale.addPlacedWord pwAX) :=
  ⟨by decide, by decide, by decide⟩

/-- C3 counterexample.  On the same grid, add AX then remove the last
word: cell (0,1) keeps the letter X (it is covered by the remaining
word AB) although it was empty before the add, so the surface is not
restored. -/
theorem add_removeLast_not_restored_counterexample :
    gridInvariant gridStale ∧
    WordPlacementService.canPlaceWord gridStale pwAX.word pwAX.toOption = true ∧
    ((gridStale.addPlacedWord pwAX).removeLastPlacedWord).2.getCell 0 1 ≠
      gridStale.getCell 0 1 :=
  ⟨by decide, by decide, by decide⟩

/-- Witness for the amended C2 theorem at a concrete input. -/
theorem addPlacedWord_preserves_strongInvariant_witness :
    strongGridInvariant gridAB ∧ (' ' ∉ pwBD.word) ∧
    WordPlacementService.canPlaceWord gridAB pwBD.word pwBD.toOption = true ∧
    strongGridInvariant (gridAB.addPlacedWord pwBD) :=
  ⟨by decide, by decide, by decide,
   addPlacedWord_preserves_strongInvariant gridAB pwBD (by decide) (by decide) (by decide)⟩

/-- Witness for the amended C3 theorem at a concrete input. -/
theorem addPlacedWord_removeLast_roundtrip_witness :
    strongGridInvariant gridAB ∧
    WordPlacementService.canPlaceWord gridAB pwBD.word pwBD.toOption = true ∧
    (((gridAB.addPlacedWord pwBD).removeLastPlacedWord).1 = some pwBD ∧
     ((gridAB.addPlacedWord pwBD).removeLastPlacedWord).2.placedWords = gridAB.placedWords ∧
     ∀ r c : Int,
       ((gridAB.addPlacedWord pwBD).removeLastPlacedWord).2.getCell r c = gridAB.getCell r c) :=
  ⟨by decide, by decide,
   addPlacedWord_removeLast_roundtrip gridAB pwBD (by decide) (by decide)⟩

namespace WordPlacementService

theorem lookupKey_eq_none_iff (m : List ((Int × Int) × Nat)) (k : Int × Int) :
    lookupKey m k = none ↔ k ∉ m.map Prod.fst := by
  induction m with
  | nil => simp [lookupKey]
  | cons p rest ih =>
    obtain ⟨k0, v0⟩ := p
    by_cases h : k0 = k
    · subst h
      simp [lookupKey]
    · rw [show lookupKey ((k0, v0) :: rest) k = lookupKey rest k by
        simp only [lookupKey]; rw [if_neg h]]
      rw [ih]
      simp [Ne.symm h]

theorem mem_of_lookupKey_eq_some (m : List ((Int × Int) × Nat)) (k : Int × Int) (v : Nat)
    (h : lookupKey m k = some v) : (k, v) ∈ m := by
  induction m with
  | nil => exact Option.noConfusion h
  | cons p rest ih =>
    obtain ⟨k0, v0⟩ := p
    by_cases hk : k0 = k
    · subst hk
      rw [show lookupKey ((k0, v0) :: rest) k0 = some v0 by
        unfold lookupKey; rw [if_pos rfl]] at h
      rw [← Option.some.inj h]
      exact List.mem_cons_self _ _
    · rw [show lookupKey ((k0, v0) :: rest) k = lookupKey rest k by
        simp only [lookupKey]; rw [if_neg hk]] at h
      exact List.mem_cons_of_mem _ (ih h)

theorem freshKeys_congr : ∀ (l : List PlacedWord) (s1 s2 : List (Int × Int)),
    (∀ k, k ∈ s1 ↔ k ∈ s2) → freshKeys s1 l = freshKeys s2 l
  | [], _, _, _ => rfl
  | w :: rest, s1, s2, h => by
    unfold freshKeys
    by_cases hm : (w.row, w.col) ∈ s1
    · rw [if_pos hm, if_pos ((h _).mp hm)]
      exact freshKeys_congr rest s1 s2 h
    · rw [if_neg hm, if_neg (fun hh => hm ((h _).mpr hh))]
      rw [freshKeys_congr rest ((w.row, w.col) :: s1) ((w.row, w.col) :: s2)
        (fun k => by simp [List.mem_cons, h k])]

theorem freshKeys_nodup_disjoint : ∀ (l : List PlacedWord) (seen : List (Int × Int)),
    (freshKeys seen l).Nodup ∧ ∀ k ∈ freshKeys seen l, k ∉ seen
  | [], seen => ⟨List.nodup_nil, by intro k hk; exact absurd hk (by simp [freshKeys])⟩
  | w :: rest, seen => by
    unfold freshKeys
    by_cases hm : (w.row, w.col) ∈ seen
    · rw [if_pos hm]
      exact freshKeys_nodup_disjoint rest seen
    · rw [if_neg hm]
      obtain ⟨hnd, hdisj⟩ := freshKeys_nodup_disjoint rest ((w.row, w.col) :: seen)
      refine ⟨List.nodup_cons.mpr ⟨fun hin => (hdisj _ hin) (List.mem_cons_self _ _), hnd⟩, ?_⟩
      intro k hk
      rcases List.mem_cons.mp hk with rfl | hk
      · exact hm
      · exact fun hks => (hdisj k hk) (List.mem_cons_of_mem _ hks)

theorem freshKeys_mem : ∀ (l : List PlacedWord) (seen : List (Int × Int)) (k : Int × Int),
    k ∈ freshKeys seen l ↔ (k ∉ seen ∧ k ∈ l.map fun w => (w.row, w.col))
  | [], seen, k => by simp [freshKeys]
  | w :: rest, seen, k => by
    unfold freshKeys
    by_cases hm : (w.row, w.col) ∈ seen
    · rw [if_pos hm, freshKeys_mem rest seen k]
      simp only [List.map_cons, List.mem_cons]
      constructor
      · rintro ⟨hns, hk⟩
        exact ⟨hns, Or.inr hk⟩
      · rintro ⟨hns, hk | hk⟩
        · exact absurd (hk ▸ hm) hns
        · exact ⟨hns, hk⟩
    · rw [if_neg hm, List.mem_cons, freshKeys_mem rest _ k]
      simp only [List.map_cons, List.mem_cons]
      constructor
      · rintro (rfl | ⟨hns, hk⟩)
        · exact ⟨hm, Or.inl rfl⟩
        · exact ⟨fun hks => hns (Or.inr hks), Or.inr hk⟩
      · rintro ⟨hns, hk | hk⟩
        · exact Or.inl hk
        · by_cases hkw : k = (w.row, w.col)
          · exact Or.inl hkw
          · refine Or.inr ⟨fun hks => ?_, hk⟩
            rcases hks with h1 | h1
            · exact hkw h1
            · exact hns h1

theorem freshKeys_sublist : ∀ (l : List PlacedWord) (seen : List (Int × Int)),
    (freshKeys seen l).Sublist (l.map fun w => (w.row, w.col))
  | [], _ => List.Sublist.refl _
  | w :: rest, seen => by
    unfold freshKeys
    by_cases hm : (w.row, w.col) ∈ seen
    · rw [if_pos hm]
      exact (freshKeys_sublist rest seen).cons _
    · rw [if_neg hm]
      exact (freshKeys_sublist rest _).cons₂ _

theorem numberList_lookup (ks : List (Int × Int)) (n : Nat) (hnd : ks.Nodup)
    (k : Int × Int) (v : Nat) :
    lookupKey (numberList ks n) k = some v ↔
      ∃ i : Nat, ∃ hi : i < ks.length, ks.get ⟨i, hi⟩ = k ∧ v = n + i := by
  induction ks generalizing n with
  | nil => simp [numberList, lookupKey]
  | cons k0 rest ih =>
    rw [show numberList (k0 :: rest) n = (k0, n) :: numberList rest (n + 1) from rfl]
    by_cases h : k0 = k
    · rw [show lookupKey ((k0, n) :: numberList rest (n + 1)) k = some n by
        unfold lookupKey; rw [if_pos h]]
      constructor
      · intro hv
        have hv2 : n = v := Option.some.inj hv
        refine ⟨0, Nat.succ_pos _, ?_, ?_⟩
        · simpa using h
        · omega
      · rintro ⟨i, hi, hget, hv⟩
        cases i with
        | zero =>
          have : v = n := by omega
          rw [this]
        | succ j =>
          exfalso
          have hjr : j < rest.length := by simpa using hi
          have hmem : k0 ∈ rest := by
            have hg : rest.get ⟨j, hjr⟩ = k := hget
            rw [← h] at hg
            exact hg ▸ List.get_mem rest j hjr
          exact (List.nodup_cons.mp hnd).1 hmem
    · rw [show lookupKey ((k0, n) :: numberList rest (n + 1)) k =
          lookupKey (numberList rest (n + 1)) k by
        simp only [lookupKey]; rw [if_neg h]]
      rw [ih (n + 1) (List.nodup_cons.mp hnd).2]
      constructor
      · rintro ⟨j, hj, hget, hv⟩
        exact ⟨j + 1, Nat.succ_lt_succ hj, hget, by omega⟩
      · rintro ⟨i, hi, hget, hv⟩
        cases i with
        | zero => exact absurd (by simpa using hget) h
        | succ j =>
          exact ⟨j, Nat.lt_of_succ_lt_succ hi, hget, by omega⟩

theorem buildNumbersGo_eq : ∀ (l : List PlacedWord) (m : List ((Int × Int) × Nat)) (n : Nat),
    buildNumbersGo m n l = m ++ numberList (freshKeys (m.map Prod.fst) l) n
  | [], m, n => by simp [buildNumbersGo, freshKeys, numberList]
  | w :: rest, m, n => by
    by_cases hmem : (w.row, w.col) ∈ m.map Prod.fst
    · rcases Option.ne_none_iff_exists'.mp
        (fun hno => (lookupKey_eq_none_iff m (w.row, w.col)).mp hno hmem) with ⟨v, hv⟩
      rw [show buildNumbersGo m n (w :: rest) = buildNumbersGo m n rest by
        simp only [buildNumbersGo]; rw [hv]]
      rw [show freshKeys (m.map Prod.fst) (w :: rest) = freshKeys (m.map Prod.fst) rest by
        simp only [freshKeys]; rw [if_pos hmem]]
      exact buildNumbersGo_eq rest m n
    · have hno : lookupKey m (w.row, w.col) = none :=
        (lookupKey_eq_none_iff m (w.row, w.col)).mpr hmem
      rw [show buildNumbersGo m n (w :: rest) =
          buildNumbersGo (m ++ [((w.row, w.col), n)]) (n + 1) rest by
        simp only [buildNumbersGo]; rw [hno]]
      rw [show freshKeys (m.map Prod.fst) (w :: rest) =
          (w.row, w.col) :: freshKeys ((w.row, w.col) :: m.map Prod.fst) rest by
        simp only [freshKeys]; rw [if_neg hmem]]
      rw [buildNumbersGo_eq rest (m ++ [((w.row, w.col), n)]) (n + 1)]
      rw [show (m ++ [((w.row, w.col), n)]).map Prod.fst = m.map Prod.fst ++ [(w.row, w.col)] by
        simp]
      rw [freshKeys_congr rest (m.map Prod.fst ++ [(w.row, w.col)])
        ((w.row, w.col) :: m.map Prod.fst) (fun k => by simp [List.mem_append, List.mem_cons]; tauto)]
      rw [show numberList ((w.row, w.col) :: freshKeys ((w.row, w.col) :: m.map Prod.fst) rest) n
          = ((w.row, w.col), n) :: numberList (freshKeys ((w.row, w.col) :: m.map Prod.fst) rest) (n + 1)
          from rfl]
      simp

/-- `assignNumbers` updates every placed word's number with the map
lookup at its anchor. -/
theorem assignNumbers_placedWords (g : CrosswordGrid) :
    (assignNumbers g).placedWords =
      g.placedWords.map (fun w =>
        { w with number :=
            (lookupKey (buildNumbers (List.insertionSort anchorLe g.placedWords))
              (w.row, w.col)).getD 0 }) := rfl

end WordPlacementService

/-- C4.  After `assignNumbers` runs on a grid with a non-empty
placed-word list: placed words with the same anchor coordinate get the
same number; the set of assigned numbers is exactly 1..k where k is the
number of distinct anchor coordinates; and numbers follow reading order
(row ascending, then column ascending). -/
theorem assignNumbers_numbering (g : CrosswordGrid) (hne : g.placedWords ≠ []) :
    (∀ w1 ∈ (WordPlacementService.assignNumbers g).placedWords,
     ∀ w2 ∈ (WordPlacementService.assignNumbers g).placedWords,
      w1.row = w2.row → w1.col = w2.col → w1.number = w2.number) ∧
    (∀ nval : Nat, (∃ w ∈ (WordPlacementService.assignNumbers g).placedWords, w.number = nval) ↔
      (1 ≤ nval ∧ nval ≤ ((g.placedWords.map fun w => (w.row, w.col)).dedup).length)) ∧
    (∀ w1 ∈ (WordPlacementService.assignNumbers g).placedWords,
     ∀ w2 ∈ (WordPlacementService.assignNumbers g).placedWords,
      (w1.row < w2.row ∨ (w1.row = w2.row ∧ w1.col < w2.col)) → w1.number < w2.number) := by
  have hperm := List.perm_insertionSort WordPlacementService.anchorLe g.placedWords
  have hsorted := List.sorted_insertionSort WordPlacementService.anchorLe g.placedWords
  have hfknd : (WordPlacementService.freshKeys []
      (List.insertionSort WordPlacementService.anchorLe g.placedWords)).Nodup :=
    (WordPlacementService.freshKeys_nodup_disjoint _ []).1
  have hfkmem : ∀ k, k ∈ WordPlacementService.freshKeys []
        (List.insertionSort WordPlacementService.anchorLe g.placedWords) ↔
      k ∈ g.placedWords.map (fun w => (w.row, w.col)) := by
    intro k
    rw [WordPlacementService.freshKeys_mem _ [] k]
    constructor
    · rintro ⟨-, hk⟩
      exact (hperm.map _).mem_iff.mp hk
    · intro hk
      exact ⟨List.not_mem_nil k, (hperm.map _).mem_iff.mpr hk⟩
  have hlen : (WordPlacementService.freshKeys []
        (List.insertionSort WordPlacementService.anchorLe g.placedWords)).length =
      ((g.placedWords.map fun w => (w.row, w.col)).dedup).length := by
    have hp : List.Perm
        (WordPlacementService.freshKeys []
          (List.insertionSort WordPlacementService.anchorLe g.placedWords))
        ((g.placedWords.map fun w => (w.row, w.col)).dedup) := by
      rw [List.perm_ext_iff_of_nodup hfknd (List.nodup_dedup _)]
      intro a
      rw [List.mem_dedup]
      exact hfkmem a
    exact hp.length_eq
  have hbn : WordPlacementService.buildNumbers
        (List.insertionSort WordPlacementService.anchorLe g.placedWords) =
      WordPlacementService.numberList (WordPlacementService.freshKeys []
        (List.insertionSort WordPlacementService.anchorLe g.placedWords)) 1 := by
    unfold WordPlacementService.buildNumbers
    rw [WordPlacementService.buildNumbersGo_eq _ [] 1]
    rfl
  have hpairwise : List.Pairwise WordPlacementService.pairLt
      (WordPlacementService.freshKeys []
        (List.insertionSort WordPlacementService.anchorLe g.placedWords)) := by
    have h1 : List.Pairwise WordPlacementService.pairLe
        ((List.insertionSort WordPlacementService.anchorLe g.placedWords).map
          fun w => (w.row, w.col)) :=
      List.Pairwise.map _ (fun a b h => h) hsorted
    have h2 : List.Pairwise WordPlacementService.pairLe
        (WordPlacementService.freshKeys []
          (List.insertionSort WordPlacementService.anchorLe g.placedWords)) :=
      List.Pairwise.sublist (WordPlacementService.freshKeys_sublist _ []) h1
    have h3 : List.Pairwise (fun a b => a ≠ b)
        (WordPlacementService.freshKeys []
          (List.insertionSort WordPlacementService.anchorLe g.placedWords)) := hfknd
    refine (h2.and h3).imp ?_
    rintro ⟨p1, p2⟩ ⟨q1, q2⟩ ⟨hle, hne2⟩
    have hne3 : ¬(p1 = q1 ∧ p2 = q2) := by
      rintro ⟨e1, e2⟩
      exact hne2 (by rw [e1, e2])
    unfold WordPlacementService.pairLe at hle
    unfold WordPlacementService.pairLt
    simp only at hle hne3 ⊢
    omega
  have hlook : ∀ w0 ∈ g.placedWords, ∃ i : Nat,
      ∃ hi : i < (WordPlacementService.freshKeys []
        (List.insertionSort WordPlacementService.anchorLe g.placedWords)).length,
      (WordPlacementService.freshKeys []
        (List.insertionSort WordPlacementService.anchorLe g.placedWords)).get ⟨i, hi⟩ =
          (w0.row, w0.col) ∧
      WordPlacementService.lookupKey (WordPlacementService.buildNumbers
        (List.insertionSort WordPlacementService.anchorLe g.placedWords))
        (w0.row, w0.col) = some (1 + i) := by
    intro w0 hw0
    have hkmem : (w0.row, w0.col) ∈ WordPlacementService.freshKeys []
        (List.insertionSort WordPlacementService.anchorLe g.placedWords) :=
      (hfkmem _).mpr (List.mem_map.mpr ⟨w0, hw0, rfl⟩)
    rcases List.mem_iff_get.mp hkmem with ⟨⟨i, hi⟩, hget⟩
    refine ⟨i, hi, hget, ?_⟩
    rw [hbn]
    exact (WordPlacementService.numberList_lookup _ 1 hfknd _ _).mpr ⟨i, hi, hget, rfl⟩
  refine ⟨?_, ?_, ?_⟩
  · intro w1 h1 w2 h2 hr hc
    rw [WordPlacementService.assignNumbers_placedWords] at h1 h2
    rcases List.mem_map.mp h1 with ⟨u1, hu1, rfl⟩
    rcases List.mem_map.mp h2 with ⟨u2, hu2, rfl⟩
    have hr2 : u1.row = u2.row := hr
    have hc2 : u1.col = u2.col := hc
    show (WordPlacementService.lookupKey _ (u1.row, u1.col)).getD 0 =
      (WordPlacementService.lookupKey _ (u2.row, u2.col)).getD 0
    rw [hr2, hc2]
  · intro nval
    constructor
    · rintro ⟨w', hw', hnum⟩
      rw [WordPlacementService.assignNumbers_placedWords] at hw'
      rcases List.mem_map.mp hw' with ⟨u, hu, rfl⟩
      rcases hlook u hu with ⟨i, hi, hget, hsome⟩
      have hnum2 : (WordPlacementService.lookupKey (WordPlacementService.buildNumbers
          (List.insertionSort WordPlacementService.anchorLe g.placedWords))
          (u.row, u.col)).getD 0 = nval := hnum
      rw [hsome] at hnum2
      simp only [Option.getD_some] at hnum2
      rw [← hlen]
      omega
    · rintro ⟨h1, h2⟩
      have hi : nval - 1 < (WordPlacementService.freshKeys []
          (List.insertionSort WordPlacementService.anchorLe g.placedWords)).length := by
        rw [hlen]; omega
      have hkmem := List.get_mem (WordPlacementService.freshKeys []
        (List.insertionSort WordPlacementService.anchorLe g.placedWords)) (nval - 1) hi
      rcases List.mem_map.mp ((hfkmem _).mp hkmem) with ⟨u, hu, hkey⟩
      rw [WordPlacementService.assignNumbers_placedWords]
      refine ⟨_, List.mem_map.mpr ⟨u, hu, rfl⟩, ?_⟩
      show (WordPlacementService.lookupKey (WordPlacementService.buildNumbers
          (List.insertionSort WordPlacementService.anchorLe g.placedWords))
          (u.row, u.col)).getD 0 = nval
      have hs := (WordPlacementService.numberList_lookup _ 1 hfknd (u.row, u.col)
          (1 + (nval - 1))).mpr ⟨nval - 1, hi, hkey.symm, rfl⟩
      rw [hbn, hs]
      simp only [Option.getD_some]
      omega
  · intro w1 h1 w2 h2 hlt
    rw [WordPlacementService.assignNumbers_placedWords] at h1 h2
    rcases List.mem_map.mp h1 with ⟨u1, hu1, rfl⟩
    rcases List.mem_map.mp h2 with ⟨u2, hu2, rfl⟩
    have hlt2 : u1.row < u2.row ∨ (u1.row = u2.row ∧ u1.col < u2.col) := hlt
    rcases hlook u1 hu1 with ⟨i1, hi1, hg1, hs1⟩
    rcases hlook u2 hu2 with ⟨i2, hi2, hg2, hs2⟩
    show (WordPlacementService.lookupKey (WordPlacementService.buildNumbers
        (List.insertionSort WordPlacementService.anchorLe g.placedWords))
        (u1.row, u1.col)).getD 0 <
      (WordPlacementService.lookupKey (WordPlacementService.buildNumbers
        (List.insertionSort WordPlacementService.anchorLe g.placedWords))
        (u2.row, u2.col)).getD 0
    rw [hs1, hs2]
    simp only [Option.getD_some]
    have hord : i1 < i2 := by
      rcases Nat.lt_trichotomy i1 i2 with h | h | h
      · exact h
      · exfalso
        subst h
        have hkk := hg1.symm.trans hg2
        have e1 : u1.row = u2.row := congrArg Prod.fst hkk
        have e2 : u1.col = u2.col := congrArg Prod.snd hkk
        omega
      · exfalso
        have hp := List.pairwise_iff_get.mp hpairwise ⟨i2, hi2⟩ ⟨i1, hi1⟩
          (Fin.mk_lt_mk.mpr h)
        rw [hg1, hg2] at hp
        unfold WordPlacementService.pairLt at hp
        simp only at hp
        omega
    omega

namespace WordPlacementService

theorem bestAchieved_append (tr : List (Option GridState)) (o : Option GridState) :
    bestAchieved (tr ++ [o]) =
      match o with
      | none => bestAchieved tr
      | some r => max (bestAchieved tr) r.placedCount := by
  unfold bestAchieved
  rw [List.foldl_append]
  cases o <;> rfl

theorem updateBest_inv (st : Option CrosswordGrid × Nat) (tr : List (Option GridState))
    (o : Option GridState) (h : driverInv st tr) :
    driverInv (updateBest st o) (tr ++ [o]) := by
  unfold driverInv at h ⊢
  obtain ⟨h1, h2, h3⟩ := h
  cases o with
  | none =>
    refine ⟨?_, h2, ?_⟩
    · rw [bestAchieved_append]
      exact h1
    · intro gr hgr
      rcases h3 gr hgr with ⟨o', ho', r, hr⟩
      exact ⟨o', List.mem_append_left _ ho', r, hr⟩
  | some r =>
    show driverInv (if r.placedCount > st.2 then (some r.grid, r.placedCount) else st)
      (tr ++ [some r])
    unfold driverInv
    by_cases hgt : r.placedCount > st.2
    · rw [if_pos hgt]
      refine ⟨?_, fun h => Option.noConfusion h, ?_⟩
      · show r.placedCount = bestAchieved (tr ++ [some r])
        rw [bestAchieved_append]
        show r.placedCount = max (bestAchieved tr) r.placedCount
        omega
      · intro gr hgr
        have hge : gr = r.grid := (Option.some.inj hgr).symm
        subst hge
        exact ⟨some r, List.mem_append_right _ (List.mem_singleton.mpr rfl), r, rfl, rfl, rfl⟩
    · rw [if_neg hgt]
      refine ⟨?_, h2, ?_⟩
      · rw [bestAchieved_append]
        show st.2 = max (bestAchieved tr) r.placedCount
        omega
      · intro gr hgr
        rcases h3 gr hgr with ⟨o', ho', rr, hrr⟩
        exact ⟨o', List.mem_append_left _ ho', rr, hrr⟩

theorem runPhase1_inv (target : Nat) : ∀ (outs : List (Option GridState))
    (st : Option CrosswordGrid × Nat) (tr : List (Option GridState)),
    driverInv st tr →
    driverInv (runPhase1 target outs st tr).1 (runPhase1 target outs st tr).2
  | [], _, _, h => h
  | o :: rest, st, tr, h => by
    have hstep := updateBest_inv st tr o h
    cases o with
    | none =>
      simp only [runPhase1]
      exact runPhase1_inv target rest _ _ hstep
    | some r =>
      simp only [runPhase1]
      by_cases hit : (updateBest st (some r)).2 = target
      · rw [if_pos hit]
        exact hstep
      · rw [if_neg hit]
        exact runPhase1_inv target rest _ _ hstep

theorem runPhase2_inv (target : Nat) (o4 o5 o6 : Option GridState)
    (p : (Option CrosswordGrid × Nat) × List (Option GridState))
    (h : driverInv p.1 p.2) :
    driverInv (runPhase2 target o4 o5 o6 p).1 (runPhase2 target o4 o5 o6 p).2 := by
  unfold runPhase2
  by_cases h1 : p.1.2 < target
  · rw [if_pos h1]
    dsimp only
    have ha := updateBest_inv p.1 p.2 o4 h
    by_cases h2 : (updateBest p.1 o4).2 < target
    · rw [if_pos h2]
      dsimp only
      have hb := updateBest_inv _ _ o5 ha
      by_cases h3 : (updateBest (updateBest p.1 o4) o5).2 < target
      · rw [if_pos h3]
        exact updateBest_inv _ _ o6 hb
      · rw [if_neg h3]
        exact hb
    · rw [if_neg h2]
      dsimp only
      by_cases h3 : (updateBest p.1 o4).2 < target
      · rw [if_pos h3]
        exact updateBest_inv _ _ o6 ha
      · rw [if_neg h3]
        exact ha
  · rw [if_neg h1]
    exact h

theorem finalize_trace (p : (Option CrosswordGrid × Nat) × List (Option GridState)) :
    (finalize p).2 = p.2 := by
  unfold finalize
  cases p.1.1 with
  | none => rfl
  | some grid =>
    dsimp only
    by_cases hlt : p.1.2 < 3
    · rw [if_pos hlt]
    · rw [if_neg hlt]

theorem finalize_spec (p : (Option CrosswordGrid × Nat) × List (Option GridState))
    (h : driverInv p.1 p.2) :
    ((finalize p).1 = Except.error "Could not place enough words to create a crossword" ↔
      bestAchieved (finalize p).2 < 3) ∧
    (∀ gr, (finalize p).1 = Except.ok gr →
      3 ≤ bestAchieved (finalize p).2 ∧
      ∃ o ∈ (finalize p).2, ∃ r : GridState, o = some r ∧ r.grid = gr ∧
        r.placedCount = bestAchieved (finalize p).2) := by
  unfold driverInv at h
  obtain ⟨h1, h2, h3⟩ := h
  rw [finalize_trace]
  unfold finalize
  cases hb : p.1.1 with
  | none =>
    constructor
    · constructor
      · intro _
        have h0 := h2 hb
        omega
      · intro _
        rfl
    · intro gr hgr
      exact Except.noConfusion hgr
  | some grid =>
    dsimp only
    by_cases hlt : p.1.2 < 3
    · rw [if_pos hlt]
      constructor
      · constructor
        · intro _
          omega
        · intro _
          rfl
      · intro gr hgr
        exact Except.noConfusion hgr
    · rw [if_neg hlt]
      constructor
      · constructor
        · intro hc
          exact absurd hc (fun hc => Except.noConfusion hc)
        · intro hc
          omega
      · intro gr hgr
        have hge : grid = gr := Except.ok.inj hgr
        subst hge
        rcases h3 grid hb with ⟨o', ho', r, hr1, hr2, hr3⟩
        exact ⟨by omega, o', ho', r, hr1, hr2, by omega⟩

theorem runPhase1_trace (target : Nat) : ∀ (outs : List (Option GridState))
    (st : Option CrosswordGrid × Nat) (tr : List (Option GridState)),
    ∃ s, (runPhase1 target outs st tr).2 = tr ++ s
  | [], _, tr => ⟨[], (List.append_nil tr).symm⟩
  | o :: rest, st, tr => by
    cases o with
    | none =>
      simp only [runPhase1]
      rcases runPhase1_trace target rest (updateBest st none) (tr ++ [none]) with ⟨s, hs⟩
      exact ⟨[none] ++ s, by rw [hs, List.append_assoc]⟩
    | some r =>
      simp only [runPhase1]
      by_cases hit : (updateBest st (some r)).2 = target
      · rw [if_pos hit]
        exact ⟨[some r], rfl⟩
      · rw [if_neg hit]
        rcases runPhase1_trace target rest (updateBest st (some r)) (tr ++ [some r]) with ⟨s, hs⟩
        exact ⟨[some r] ++ s, by rw [hs, List.append_assoc]⟩

theorem runPhase1_trace_cons (target : Nat) (o : Option GridState)
    (rest : List (Option GridState)) (st : Option CrosswordGrid × Nat)
    (tr : List (Option GridState)) :
    ∃ s, (runPhase1 target (o :: rest) st tr).2 = (tr ++ [o]) ++ s := by
  cases o with
  | none =>
    simp only [runPhase1]
    exact runPhase1_trace target rest _ (tr ++ [none])
  | some r =>
    simp only [runPhase1]
    by_cases hit : (updateBest st (some r)).2 = target
    · rw [if_pos hit]
      exact ⟨[], (List.append_nil _).symm⟩
    · rw [if_neg hit]
      exact runPhase1_trace target rest _ (tr ++ [some r])

theorem runPhase2_trace (target : Nat) (o4 o5 o6 : Option GridState)
    (p : (Option CrosswordGrid × Nat) × List (Option GridState)) :
    ∃ s, (runPhase2 target o4 o5 o6 p).2 = p.2 ++ s := by
  unfold runPhase2
  by_cases h1 : p.1.2 < target
  · rw [if_pos h1]
    dsimp only
    by_cases h2 : (updateBest p.1 o4).2 < target
    · rw [if_pos h2]
      dsimp only
      by_cases h3 : (updateBest (updateBest p.1 o4) o5).2 < target
      · rw [if_pos h3]
        exact ⟨[o4] ++ [o5] ++ [o6], by simp⟩
      · rw [if_neg h3]
        exact ⟨[o4] ++ [o5], by simp⟩
    · rw [if_neg h2]
      dsimp only
      by_cases h3 : (updateBest p.1 o4).2 < target
      · rw [if_pos h3]
        exact ⟨[o4] ++ [o6], by simp⟩
      · rw [if_neg h3]
        exact ⟨[o4], rfl⟩
  · rw [if_neg h1]
    exact ⟨[], (List.append_nil p.2).symm⟩

end WordPlacementService

/-- C5.  With the strategy invocations abstracted as their outcomes
(they poll the wall clock and the random generator), the driver of
`generateLayout` on a non-empty entry list raises its error exactly
when the best placed-word count achieved across all attempted
strategies is below 3, and otherwise returns the grid of an attempted
strategy outcome achieving that best count — never a silent partial
failure. -/
theorem generateLayout_best_of_attempts (entries : List WordEntry)
    (o1 o2 o3 o4 o5 o6 : Option WordPlacementService.GridState) (hne : entries ≠ []) :
    ((WordPlacementService.generateLayout entries o1 o2 o3 o4 o5 o6).1 =
        Except.error "Could not place enough words to create a crossword" ↔
      WordPlacementService.bestAchieved
        (WordPlacementService.generateLayout entries o1 o2 o3 o4 o5 o6).2 < 3) ∧
    (∀ gr, (WordPlacementService.generateLayout entries o1 o2 o3 o4 o5 o6).1 = Except.ok gr →
      3 ≤ WordPlacementService.bestAchieved
        (WordPlacementService.generateLayout entries o1 o2 o3 o4 o5 o6).2 ∧
      ∃ o ∈ (WordPlacementService.generateLayout entries o1 o2 o3 o4 o5 o6).2,
        ∃ r : WordPlacementService.GridState, o = some r ∧ r.grid = gr ∧
          r.placedCount = WordPlacementService.bestAchieved
            (WordPlacementService.generateLayout entries o1 o2 o3 o4 o5 o6).2) := by
  have hlen : ¬(entries.length = 0) := fun h => hne (List.length_eq_zero.mp h)
  have hg : WordPlacementService.generateLayout entries o1 o2 o3 o4 o5 o6 =
      WordPlacementService.finalize (WordPlacementService.runPhase2
        (entries.map normalizeWordEntry).length o4 o5 o6
        (WordPlacementService.runPhase1 (entries.map normalizeWordEntry).length
          [o1, o2, o3] (none, 0) [])) := by
    unfold WordPlacementService.generateLayout
    rw [if_neg hlen]
  rw [hg]
  refine WordPlacementService.finalize_spec _ ?_
  refine WordPlacementService.runPhase2_inv _ o4 o5 o6 _ ?_
  refine WordPlacementService.runPhase1_inv _ [o1, o2, o3] (none, 0) [] ?_
  unfold WordPlacementService.driverInv
  exact ⟨rfl, fun _ => rfl, fun gr hgr => Option.noConfusion hgr⟩

/-- Witness for C5 at a concrete input. -/
theorem generateLayout_best_of_attempts_witness :
    ([entryDigits] : List WordEntry) ≠ [] ∧
    ((WordPlacementService.generateLayout [entryDigits] none none none none none none).1 =
        Except.error "Could not place enough words to create a crossword" ↔
      WordPlacementService.bestAchieved
        (WordPlacementService.generateLayout [entryDigits] none none none none none none).2 < 3) :=
  ⟨by decide,
   (generateLayout_best_of_attempts [entryDigits] none none none none none none (by decide)).1⟩

/-- C7 (amended).  `generateLayout` fails immediately, before any
strategy runs, exactly when the entry list is empty; on every non-empty
entry list — in particular one whose answers all normalize to the empty
string — at least one strategy is attempted before any error is
raised. -/
theorem generateLayout_input_check (entries : List WordEntry)
    (o1 o2 o3 o4 o5 o6 : Option WordPlacementService.GridState) :
    (entries = [] → WordPlacementService.generateLayout entries o1 o2 o3 o4 o5 o6 =
      (Except.error "No words provided", [])) ∧
    (entries ≠ [] →
      (WordPlacementService.generateLayout entries o1 o2 o3 o4 o5 o6).2 ≠ []) := by
  constructor
  · intro h
    subst h
    rfl
  · intro hne
    have hlen : ¬(entries.length = 0) := fun h => hne (List.length_eq_zero.mp h)
    have hg : WordPlacementService.generateLayout entries o1 o2 o3 o4 o5 o6 =
        WordPlacementService.finalize (WordPlacementService.runPhase2
          (entries.map normalizeWordEntry).length o4 o5 o6
          (WordPlacementService.runPhase1 (entries.map normalizeWordEntry).length
            [o1, o2, o3] (none, 0) [])) := by
      unfold WordPlacementService.generateLayout
      rw [if_neg hlen]
    rw [hg, WordPlacementService.finalize_trace]
    rcases WordPlacementService.runPhase2_trace (entries.map normalizeWordEntry).length
      o4 o5 o6 (WordPlacementService.runPhase1 (entries.map normalizeWordEntry).length
        [o1, o2, o3] (none, 0) []) with ⟨s2, hs2⟩
    rw [hs2]
    rcases WordPlacementService.runPhase1_trace_cons (entries.map normalizeWordEntry).length
      o1 [o2, o3] (none, 0) [] with ⟨s1, hs1⟩
    rw [hs1]
    simp

/-- C7 counterexample.  A single entry whose answer normalizes to the
empty string: the driver still attempts the greedy strategies (the
attempted-outcome trace is non-empty) and the error it raises is the
final shortfall error, not an immediate input error; so failure does
not happen before any strategy runs. -/
theorem generateLayout_runs_strategies_counterexample :
    normalizeWordEntry entryDigits = { clue := "digits", answer := [] } ∧
    (WordPlacementService.generateLayout [entryDigits]
      none none none none none none).2.length = 6 ∧
    (WordPlacementService.generateLayout [entryDigits] none none none none none none).1 =
      Except.error "Could not place enough words to create a crossword" := by
  refine ⟨by decide, rfl, rfl⟩

/-- Witness for the amended C7 theorem at concrete inputs. -/
theorem generateLayout_input_check_witness :
    (WordPlacementService.generateLayout [] none none none none none none =
      (Except.error "No words provided", [])) ∧
    (WordPlacementService.generateLayout [entryDigits] none none none none none none).2 ≠ [] :=
  ⟨(generateLayout_input_check [] none none none none none none).1 rfl,
   (generateLayout_input_check [entryDigits] none none none none none none).2 (by decide)⟩

/-- Witness for C4 at a concrete grid. -/
theorem assignNumbers_numbering_witness :
    gridAB.placedWords ≠ [] ∧
    (∀ w1 ∈ (WordPlacementService.assignNumbers gridAB).placedWords,
     ∀ w2 ∈ (WordPlacementService.assignNumbers gridAB).placedWords,
      w1.row = w2.row → w1.col = w2.col → w1.number = w2.number) :=
  ⟨by decide, (assignNumbers_numbering gridAB (by decide)).1⟩

/-- A `flatMap` whose function is the singleton on every element of the
list is the identity. -/
theorem flatMap_id_of_singleton (l : List Char) (f : Char → List Char)
    (h : ∀ a ∈ l, f a = [a]) : l.flatMap f = l := by
  induction l with
  | nil => rfl
  | cons a rest ih =>
    rw [List.flatMap_cons, h a (List.mem_cons_self a rest),
      ih (fun b hb => h b (List.mem_cons_of_mem _ hb))]
    rfl

/-- Every character of a normalized answer is a plain letter A–Z. -/
theorem normalizeAnswer_chars (s : List Char) :
    ∀ c ∈ normalizeAnswer s, 'A' ≤ c ∧ c ≤ 'Z' := by
  intro c hc
  unfold normalizeAnswer at hc
  rcases List.mem_flatMap.mp hc with ⟨c3, hc3, hcf4⟩
  rcases List.mem_flatMap.mp hc3 with ⟨c2, hc2, hcf3⟩
  rcases List.mem_flatMap.mp hc2 with ⟨c1, hc1, hcf2⟩
  rcases List.mem_flatMap.mp hc1 with ⟨c0, hc0, hcf1⟩
  have hP0 : (('A' ≤ c0 ∧ c0 ≤ 'Z') ∨ c0 = 'Ä' ∨ c0 = 'Ö' ∨ c0 = 'Ü') :=
    of_decide_eq_true (List.mem_filter.mp hc0).2
  have hP1 : (('A' ≤ c1 ∧ c1 ≤ 'Z') ∨ c1 = 'Ö' ∨ c1 = 'Ü') := by
    by_cases h : c0 = 'Ä'
    · rw [if_pos h] at hcf1
      rcases List.mem_cons.mp hcf1 with rfl | hcf1
      · exact Or.inl (by decide)
      · rcases List.mem_singleton.mp hcf1 with rfl
        exact Or.inl (by decide)
    · rw [if_neg h] at hcf1
      rcases List.mem_singleton.mp hcf1 with rfl
      rcases hP0 with hz | h1 | h1 | h1
      · exact Or.inl hz
      · exact absurd h1 h
      · exact Or.inr (Or.inl h1)
      · exact Or.inr (Or.inr h1)
  have hP2 : (('A' ≤ c2 ∧ c2 ≤ 'Z') ∨ c2 = 'Ü') := by
    by_cases h : c1 = 'Ö'
    · rw [if_pos h] at hcf2
      rcases List.mem_cons.mp hcf2 with rfl | hcf2
      · exact Or.inl (by decide)
      · rcases List.mem_singleton.mp hcf2 with rfl
        exact Or.inl (by decide)
    · rw [if_neg h] at hcf2
      rcases List.mem_singleton.mp hcf2 with rfl
      rcases hP1 with hz | h1 | h1
      · exact Or.inl hz
      · exact absurd h1 h
      · exact Or.inr h1
  have hP3 : ('A' ≤ c3 ∧ c3 ≤ 'Z') := by
    by_cases h : c2 = 'Ü'
    · rw [if_pos h] at hcf3
      rcases List.mem_cons.mp hcf3 with rfl | hcf3
      · exact (by decide)
      · rcases List.mem_singleton.mp hcf3 with rfl
        exact (by decide)
    · rw [if_neg h] at hcf3
      rcases List.mem_singleton.mp hcf3 with rfl
      rcases hP2 with hz | h1
      · exact hz
      · exact absurd h1 h
  by_cases h : c3 = 'ß'
  · exfalso
    rw [h] at hP3
    exact absurd hP3.2 (by decide)
  · rw [if_neg h] at hcf4
    rcases List.mem_singleton.mp hcf4 with rfl
    exact hP3

/-- C6 (amended).  `placeFirstWord` appends the starting word centered
along the requested orientation: with HORIZONTAL the anchor is
row = floor(gridSize/2), col = floor((gridSize − wordLength)/2), and
with VERTICAL the transpose.  The strategies do not always request
HORIZONTAL: backtracking and beam search enumerate both orientations
and random restarts picks one at random, so the first placed word is
not always horizontal. -/
theorem placeFirstWord_centered (grid : CrosswordGrid) (entry : WordEntry)
    (dir : Direction) (gridSize : Int) :
    (WordPlacementService.placeFirstWord grid entry dir gridSize).placedWords =
      grid.placedWords ++
        [{ word := entry.answer, clue := entry.clue,
           row := if dir = Direction.horizontal then Int.fdiv gridSize 2
                  else Int.fdiv (gridSize - entry.answer.length) 2,
           col := if dir = Direction.horizontal then Int.fdiv (gridSize - entry.answer.length) 2
                  else Int.fdiv gridSize 2,
           direction := dir, number := 1 }] := by
  unfold WordPlacementService.placeFirstWord
  rw [CrosswordGrid.addPlacedWord_placedWords]

/-- C6 counterexample.  The initial beam that `tryBeamSearch` builds
contains a state whose single placed word is VERTICAL (centered along
the vertical axis), so it is not the case that every strategy places
its starting word horizontally. -/
theorem firstWord_not_always_horizontal_counterexample :
    ∃ st ∈ WordPlacementService.initialBeam [entryAB] 10,
      ∃ w ∈ st.grid.placedWords,
        w.direction = Direction.vertical ∧
        w.row = Int.fdiv (10 - 2) 2 ∧ w.col = Int.fdiv 10 2 := by
  have hbeam : WordPlacementService.initialBeam [entryAB] 10 =
      [{ grid := WordPlacementService.placeFirstWord (CrosswordGrid.make 10 10) entryAB
           Direction.horizontal 10, placed := [0], score := 1 },
       { grid := WordPlacementService.placeFirstWord (CrosswordGrid.make 10 10) entryAB
           Direction.vertical 10, placed := [0], score := 1 }] := by
    unfold WordPlacementService.initialBeam
    rfl
  have hw : (WordPlacementService.placeFirstWord (CrosswordGrid.make 10 10) entryAB
      Direction.vertical 10).placedWords =
      [{ word := entryAB.answer, clue := entryAB.clue, row := Int.fdiv (10 - 2) 2,
         col := Int.fdiv 10 2, direction := Direction.vertical, number := 1 }] := by
    unfold WordPlacementService.placeFirstWord
    rw [CrosswordGrid.addPlacedWord_placedWords]
    rfl
  rw [hbeam]
  refine ⟨_, List.mem_cons_of_mem _ (List.mem_cons_self _ _), ?_⟩
  rw [hw]
  exact ⟨_, List.mem_cons_self _ _, rfl, rfl, rfl⟩

/-- Normalization fixes any string of plain letters A–Z. -/
theorem normalizeAnswer_fixed (t : List Char) (hchars : ∀ c ∈ t, 'A' ≤ c ∧ c ≤ 'Z') :
    normalizeAnswer t = t := by
  have h1 : t.flatMap jsUpperChar = t := by
    refine flatMap_id_of_singleton t _ (fun a ha => ?_)
    have hAZ := hchars a ha
    unfold jsUpperChar
    rw [if_neg (fun hc => absurd (le_trans hc.1 hAZ.2) (by decide)),
        if_neg (fun hc => absurd hAZ.2 (by rw [hc]; decide)),
        if_neg (fun hc => absurd hAZ.2 (by rw [hc]; decide)),
        if_neg (fun hc => absurd hAZ.2 (by rw [hc]; decide)),
        if_neg (fun hc => absurd hAZ.2 (by rw [hc]; decide))]
  have h2 : (t.filter fun c =>
      decide (('A' ≤ c ∧ c ≤ 'Z') ∨ c = 'Ä' ∨ c = 'Ö' ∨ c = 'Ü')) = t := by
    refine List.filter_eq_self.mpr (fun a ha => ?_)
    exact decide_eq_true (Or.inl (hchars a ha))
  have h3 : (t.flatMap fun c => if c = 'Ä' then ['A', 'E'] else [c]) = t := by
    refine flatMap_id_of_singleton t _ (fun a ha => ?_)
    exact if_neg (fun hc => absurd (hchars a ha).2 (by rw [hc]; decide))
  have h4 : (t.flatMap fun c => if c = 'Ö' then ['O', 'E'] else [c]) = t := by
    refine flatMap_id_of_singleton t _ (fun a ha => ?_)
    exact if_neg (fun hc => absurd (hchars a ha).2 (by rw [hc]; decide))
  have h5 : (t.flatMap fun c => if c = 'Ü' then ['U', 'E'] else [c]) = t := by
    refine flatMap_id_of_singleton t _ (fun a ha => ?_)
    exact if_neg (fun hc => absurd (hchars a ha).2 (by rw [hc]; decide))
  have h6 : (t.flatMap fun c => if c = 'ß' then ['S', 'S'] else [c]) = t := by
    refine flatMap_id_of_singleton t _ (fun a ha => ?_)
    exact if_neg (fun hc => absurd (hchars a ha).2 (by rw [hc]; decide))
  unfold normalizeAnswer
  dsimp only
  rw [h1, h2, h3, h4, h5, h6]

/-- C8.  Answer normalization is idempotent: for every entry, applying
`normalizeWordEntry` twice yields the same result as applying it
once. -/
theorem normalizeWordEntry_idempotent (e : WordEntry) :
    normalizeWordEntry (normalizeWordEntry e) = normalizeWordEntry e := by
  unfold normalizeWordEntry
  dsimp only
  rw [normalizeAnswer_fixed (normalizeAnswer e.answer) (normalizeAnswer_chars e.answer)]

/-- C9 (amended).  The grid constructor raises an error exactly when
the allocation itself fails: `Array(height)` throws for a negative
height, and the inner `Array(width)` throws for a negative width but is
only evaluated when height > 0.  Zero (and even a negative width with
height = 0) is accepted and yields a degenerate grid. -/
theorem construct_error_iff (w h : Int) :
    CrosswordGrid.construct w h = none ↔ (h < 0 ∨ (0 < h ∧ w < 0)) := by
  unfold CrosswordGrid.construct
  by_cases h1 : h < 0
  · rw [if_pos h1]
    simp [h1]
  · rw [if_neg h1]
    by_cases h2 : 0 < h ∧ w < 0
    · rw [if_pos h2]
      simp [h2]
    · rw [if_neg h2]
      simp [h1, h2]

/-- C9 counterexample.  Width 0, height 0 satisfies "width ≤ 0 or
height ≤ 0", yet the constructor succeeds and produces a grid. -/
theorem construct_zero_counterexample :
    ((0 : Int) ≤ 0 ∨ (0 : Int) ≤ 0) ∧ (CrosswordGrid.construct 0 0).isSome = true :=
  ⟨Or.inl (le_refl 0), by decide⟩

/-- C10.  `removeLastPlacedWord` on a grid with an empty placed-word
list returns `undefined` (modelled `none`) and leaves the grid
unchanged: the list stays empty and every cell keeps its value. -/
theorem removeLastPlacedWord_empty (g : CrosswordGrid) (h : g.placedWords = []) :
    (g.removeLastPlacedWord).1 = none ∧ (g.removeLastPlacedWord).2.placedWords = [] ∧
    ∀ r c : Int, (g.removeLastPlacedWord).2.getCell r c = g.getCell r c := by
  have he : g.removeLastPlacedWord = (none, g) := by
    unfold CrosswordGrid.removeLastPlacedWord
    rw [h]
    rfl
  rw [he]
  exact ⟨rfl, h, fun r c => rfl⟩

/-- Witness for C10 at a concrete grid. -/
theorem removeLastPlacedWord_empty_witness :
    ((CrosswordGrid.make 4 4).placedWords = []) ∧
    (((CrosswordGrid.make 4 4).removeLastPlacedWord).1 = none ∧
     ((CrosswordGrid.make 4 4).removeLastPlacedWord).2.placedWords = [] ∧
     ∀ r c : Int, ((CrosswordGrid.make 4 4).removeLastPlacedWord).2.getCell r c =
       (CrosswordGrid.make 4 4).getCell r c) :=
  ⟨rfl, removeLastPlacedWord_empty (CrosswordGrid.make 4 4) rfl⟩

/-- C1.  The placement validator `canPlaceWord` accepts a candidate
placement (word, anchor row/col, orientation) if and only if all four
conditions hold: (1) every cell of the word's footprint lies within
grid bounds; (2) for every footprint cell, if the cell is occupied its
character equals the word's character at that position, and if it is
empty both cells immediately perpendicular-adjacent to it are empty;
(3) at least one footprint cell is occupied (intersection count ≥ 1);
and (4) the cell immediately before the word's start and the cell
immediately after its end along its orientation are both empty. -/
theorem canPlaceWord_iff_spec (g : CrosswordGrid) (word : List Char) (opt : PlacementOption) :
    WordPlacementService.canPlaceWord g word opt = true ↔
      (specFootprintInBounds g word opt ∧ specCellsCompatible g word opt ∧
       specHasIntersection g word opt ∧ specEndsFree g word opt) :=
  canPlaceWord_true_iff_conditions g word opt

end Crossword
